import Mathlib

/-!
Verification of the fuzzamoto core against its natural-language specification.

The Rust sources are shallowly embedded: `u64` values become `Nat` with an
explicit `% 2^64` where overflow matters, fallible code returns `Option` or
`Except`, and effectful code is modelled as explicit state passing or as an
event trace. Definitions follow the Rust sources (`fuzzamoto/src/assertions.rs`,
`fuzzamoto-ir/src/operation.rs`, `fuzzamoto-ir/src/generators/*.rs`,
`fuzzamoto-libafl/src/stages/incremental_snapshot_stage.rs`,
`fuzzamoto-libafl/src/feedbacks/assertions.rs`); parts of the repository whose
sources are not available (the `Program` builder and validator, some
`Operation` variants) are modelled from the specification and marked as such.
-/

set_option maxHeartbeats 1000000

/-- `2^64`, the modulus of Rust's `u64` arithmetic. -/
def U64MOD : Nat := 18446744073709551616

/-- Embedding of `enum Assertion` from `fuzzamoto/src/assertions.rs`.
Operands are `u64` values, embedded as `Nat` (callers stay below `U64MOD`). -/
inductive Assertion where
  | Condition (value : Bool)
  | LessThan (a b : Nat)
  | LessThanOrEqual (a b : Nat)
  | GreaterThan (a b : Nat)
  | GreaterThanOrEqual (a b : Nat)
deriving DecidableEq, Repr

/-- Embedding of `Assertion::distance` (`fuzzamoto/src/assertions.rs:19-59`).
Rust `u64` subtraction here never underflows (each branch guards it), but the
`+ 1` in the non-firing branches is `u64` addition and can wrap, hence the
explicit `% U64MOD` on exactly those branches. -/
def Assertion.distance : Assertion → Bool → Nat
  | .Condition value, inverted => if value = inverted then 1 else 0
  | .LessThan a b, inverted =>
    if inverted then
      if a ≥ b then 0 else b - a
    else
      if a < b then 0 else (a - b + 1) % U64MOD
  | .LessThanOrEqual a b, inverted =>
    if inverted then
      if a > b then 0 else (b - a + 1) % U64MOD
    else
      if a ≤ b then 0 else a - b
  | .GreaterThan a b, inverted =>
    if inverted then
      if a ≤ b then 0 else a - b
    else
      if a > b then 0 else (b - a + 1) % U64MOD
  | .GreaterThanOrEqual a b, inverted =>
    if inverted then
      if a < b then 0 else (a - b + 1) % U64MOD
    else
      if a ≥ b then 0 else b - a

/-- Embedding of `enum AssertionScope` (`fuzzamoto/src/assertions.rs:64-67`).
Rust `String` messages are embedded as `List Char`. -/
inductive AssertionScope where
  | Sometimes (assertion : Assertion) (message : List Char)
  | Always (assertion : Assertion) (message : List Char)
deriving DecidableEq, Repr

/-- Embedding of `AssertionScope::distance` (`assertions.rs:76-87`). -/
def AssertionScope.distance : AssertionScope → Nat
  | .Sometimes assertion _ => assertion.distance false
  | .Always assertion _ => assertion.distance true

/-- Embedding of `AssertionScope::evaluate` (`assertions.rs:71-73`). -/
def AssertionScope.evaluate (s : AssertionScope) : Bool :=
  s.distance = 0

/-- Embedding of `AssertionScope::message` (`assertions.rs:90-94`). -/
def AssertionScope.message : AssertionScope → List Char
  | .Sometimes _ msg => msg
  | .Always _ msg => msg

/-- The `fires` flag computed for display by `write_assertions`
(`assertions.rs:107-120`): it starts as `evaluate()` and is negated for
`Always` scopes. -/
def AssertionScope.displayedFires : AssertionScope → Bool
  | .Sometimes a m => (AssertionScope.Sometimes a m).evaluate
  | .Always a m => !(AssertionScope.Always a m).evaluate

/-- Restatement of the spec's branch-distance formulas for `LessThan`, used to
compare the source definition against the claim's wording ("equals 0 if a < b
and a - b + 1 otherwise", and inverted "0 if a >= b else b - a"), in `u64`
arithmetic. -/
def specLessThanDistance (a b : Nat) (inverted : Bool) : Nat :=
  if inverted then
    if a ≥ b then 0 else b - a
  else
    if a < b then 0 else (a - b + 1) % U64MOD

/-- Restatement of the spec's formulas for `LessThanOrEqual`: non-inverted
"0 if a <= b else a - b", inverted "0 if a > b else b - a + 1". -/
def specLessThanOrEqualDistance (a b : Nat) (inverted : Bool) : Nat :=
  if inverted then
    if a > b then 0 else (b - a + 1) % U64MOD
  else
    if a ≤ b then 0 else a - b

/-- Restatement of the spec's formulas for `GreaterThan`: non-inverted
"0 if a > b else b - a + 1", inverted "0 if a <= b else a - b". -/
def specGreaterThanDistance (a b : Nat) (inverted : Bool) : Nat :=
  if inverted then
    if a ≤ b then 0 else a - b
  else
    if a > b then 0 else (b - a + 1) % U64MOD

/-- Restatement of the spec's formulas for `GreaterThanOrEqual`: non-inverted
"0 if a >= b else b - a", inverted "0 if a < b else a - b + 1". -/
def specGreaterThanOrEqualDistance (a b : Nat) (inverted : Bool) : Nat :=
  if inverted then
    if a < b then 0 else (a - b + 1) % U64MOD
  else
    if a ≥ b then 0 else b - a

/-- C3: for all `u64` operands, the four inequality assertions compute exactly
the spec's branch-distance formulas (in `u64` arithmetic), both inverted and
non-inverted; in particular `LessThan(10,3).distance(false) = 8` and
`LessThan(10,3).distance(true) = 0`. -/
theorem C3_branch_distance_formulas (a b : Nat) (inverted : Bool)
    (ha : a < U64MOD) (hb : b < U64MOD) :
    (Assertion.LessThan a b).distance inverted = specLessThanDistance a b inverted ∧
    (Assertion.LessThanOrEqual a b).distance inverted
      = specLessThanOrEqualDistance a b inverted ∧
    (Assertion.GreaterThan a b).distance inverted
      = specGreaterThanDistance a b inverted ∧
    (Assertion.GreaterThanOrEqual a b).distance inverted
      = specGreaterThanOrEqualDistance a b inverted ∧
    (Assertion.LessThan 10 3).distance false = 8 ∧
    (Assertion.LessThan 10 3).distance true = 0 := by
  refine ⟨rfl, rfl, rfl, rfl, rfl, rfl⟩

/-- Witness for C3 at `a = 10`, `b = 3`, `inverted = false`. -/
theorem C3_branch_distance_formulas_witness :
    (Assertion.LessThan 10 3).distance false = specLessThanDistance 10 3 false :=
  (C3_branch_distance_formulas 10 3 false (by decide) (by decide)).1

/-- C4 evaluation at the failing input: `LessThan(u64::MAX, 0)` does not fire
under `inverted = false` (the condition `u64::MAX < 0` is false), yet its
distance is 0 because `a - b + 1` wraps to 0 in `u64` arithmetic; the same
zero distance surfaces through `AssertionScope::Sometimes`. So the distance
is not strictly positive in every non-firing case, contradicting the claim. -/
theorem C4_distance_wraps_to_zero :
    (Assertion.LessThan (U64MOD - 1) 0).distance false = 0 ∧
    ¬ (U64MOD - 1 < 0) ∧
    (AssertionScope.Sometimes (Assertion.LessThan (U64MOD - 1) 0) []).distance = 0 ∧
    (AssertionScope.Sometimes (Assertion.LessThan (U64MOD - 1) 0) []).evaluate = true := by
  refine ⟨by decide, by decide, by decide, by decide⟩

/-- C5 counterexample: the claim states
`AssertionScope::Always(LessThan(10,3), "x").evaluate()` returns `false`; in
the code it returns `true` (for `Always`, `distance` is the inverted inner
distance, which is 0 because `10 ≥ 3`, and `evaluate` is `distance == 0`). -/
theorem C5_always_evaluate_counterexample :
    (AssertionScope.Always (Assertion.LessThan 10 3) ['x']).evaluate ≠ false := by
  decide

/-- C5 (amended): `AssertionScope::Always(LessThan(10,3), "x").evaluate()`
returns `true` — the `Always` assertion fires because `10 < 3` does not hold
(a violation), its distance is 0, and `evaluate` reports firing. The `false`
of the spec's S3 line corresponds to the display flag of `write_assertions`,
which negates `evaluate()` for `Always` scopes. -/
theorem C5_always_evaluate_true :
    (AssertionScope.Always (Assertion.LessThan 10 3) ['x']).evaluate = true ∧
    (AssertionScope.Always (Assertion.LessThan 10 3) ['x']).distance = 0 ∧
    (AssertionScope.Always (Assertion.LessThan 10 3) ['x']).displayedFires = false := by
  refine ⟨by decide, by decide, by decide⟩

/-- Embedding of `enum Variable` of the IR. The variant list follows the
spec's §3 data model and the uses in `fuzzamoto-ir/src/operation.rs`
(which names `ConstAmount` where the spec's overview says `Amount`).
The last four variants are modelled from the spec: the compact-block
generator (`fuzzamoto-ir/src/generators/compact_block.rs`) uses a nonce, a
prefill-transactions container pair, and a compact-block value whose
`Variable` declarations are not among the available sources. -/
inductive Variable where
  | Node
  | Connection
  | ConnectionType
  | MsgType
  | Bytes
  | Duration
  | Time
  | BlockHeight
  | CompactFilterType
  | ConstAmount
  | TxVersion
  | BlockVersion
  | LockTime
  | Sequence
  | Size
  | PrivateKey
  | SigHashFlags
  | Txo
  | Scripts
  | Header
  | Block
  | CoinbaseInput
  | CoinbaseTx
  | MutTx
  | MutTxInputs
  | MutTxOutputs
  | MutWitnessStack
  | MutInventory
  | MutBlockTransactions
  | ConstTx
  | ConstTxInputs
  | ConstTxOutputs
  | ConstWitnessStack
  | ConstInventory
  | ConstBlockTransactions
  | Nop
  | Nonce
  | MutPrefillTransactions
  | ConstPrefillTransactions
  | CompactBlock
deriving DecidableEq, Repr

/-- Embedding of `enum Operation` (`fuzzamoto-ir/src/operation.rs:6-124`).
Rust payloads are embedded with `Nat` for unsigned integers, `Int` for `i32`,
`List Nat` for byte arrays/vectors and `List Char` for strings; the `LoadTxo`
and `LoadHeader` payload records are carried as tuples of those.
The final eight variants are modelled from the spec: `IncrementalSnapshot` is
inserted by the execution layer (`fuzzamoto-libafl/src/input.rs:54`),
`AddConnection` (inputs `Node`, `ConnectionType`; output `Connection`) is used
by `fuzzamoto-ir/src/generators/add_connection.rs`, and the
compact-block operations are used by
`fuzzamoto-ir/src/generators/compact_block.rs` (a `BeginPrefillTransactions`/
`EndPrefillTransactions` scope pair whose inner output is the mutable prefill
list, `AddPrefillTx(list, tx_list, tx)`, `LoadNonce`,
`BuildCompactBlockWithPrefill(block, nonce, prefill)` and
`SendCompactBlock(connection, cmpct)`), but their `Operation` declarations are
not among the available sources. -/
inductive Operation where
  | Nop (outputs : Nat) (inner_outputs : Nat)
  | LoadBytes (bytes : List Nat)
  | LoadMsgType (msg_type : List Char)
  | LoadNode (index : Nat)
  | LoadConnection (index : Nat)
  | LoadConnectionType (connection_type : List Char)
  | LoadDuration (duration : Nat)
  | LoadTime (time : Nat)
  | LoadAmount (amount : Nat)
  | LoadSize (size : Nat)
  | LoadTxVersion (version : Nat)
  | LoadBlockVersion (version : Int)
  | LoadLockTime (lock_time : Nat)
  | LoadSequence (sequence : Nat)
  | LoadBlockHeight (height : Nat)
  | LoadCompactFilterType (filter_type : Nat)
  | LoadPrivateKey (private_key : List Nat)
  | LoadSigHashFlags (sig_hash_flags : Nat)
  | LoadTxo (outpoint : List Nat × Nat) (value : Nat) (script_pubkey : List Nat)
      (spending_script_sig : List Nat) (spending_witness : List (List Nat))
  | LoadHeader (prev : List Nat) (merkle_root : List Nat) (nonce : Nat)
      (bits : Nat) (time : Nat) (version : Int) (height : Nat)
  | SendRawMessage
  | AdvanceTime
  | SetTime
  | BuildRawScripts
  | BuildPayToWitnessScriptHash
  | BuildPayToPubKey
  | BuildPayToPubKeyHash
  | BuildPayToWitnessPubKeyHash
  | BuildPayToScriptHash
  | BuildOpReturnScripts
  | BuildPayToAnchor
  | BeginWitnessStack
  | EndWitnessStack
  | AddWitness
  | BeginBuildTx
  | EndBuildTx
  | BeginBuildTxInputs
  | EndBuildTxInputs
  | BeginBuildTxOutputs
  | EndBuildTxOutputs
  | AddTxOutput
  | AddTxInput
  | TakeTxo
  | BeginBuildCoinbaseTx
  | EndBuildCoinbaseTx
  | BuildCoinbaseTxInput
  | BeginBuildCoinbaseTxOutputs
  | EndBuildCoinbaseTxOutputs
  | AddCoinbaseTxOutput
  | BeginBlockTransactions
  | EndBlockTransactions
  | BuildBlock
  | AddTx
  | AddCoinbaseTx
  | BeginBuildInventory
  | EndBuildInventory
  | AddCompactBlockInv
  | AddTxidInv
  | AddTxidWithWitnessInv
  | AddWtxidInv
  | AddBlockInv
  | AddBlockWithWitnessInv
  | AddFilteredBlockInv
  | SendGetData
  | SendInv
  | SendTx
  | SendTxNoWit
  | SendHeader
  | SendBlock
  | SendBlockNoWit
  | SendGetCFilters
  | SendGetCFHeaders
  | SendGetCFCheckpt
  | IncrementalSnapshot
  | AddConnection
  | LoadNonce (nonce : Nat)
  | BeginPrefillTransactions
  | EndPrefillTransactions
  | AddPrefillTx
  | BuildCompactBlockWithPrefill
  | SendCompactBlock

/-- Embedding of `Operation::mutates_nth_input` (`operation.rs:275-289`):
a guarded match returning `true` only for the listed operations at input
index 0, and `false` for everything else. -/
def Operation.mutates_nth_input (op : Operation) (index : Nat) : Bool :=
  match op, index with
  | .AddTxInput, 0 => true
  | .AddTxOutput, 0 => true
  | .AddCoinbaseTxOutput, 0 => true
  | .TakeTxo, 0 => true
  | .AddWitness, 0 => true
  | .AddTxidInv, 0 => true
  | .AddTxidWithWitnessInv, 0 => true
  | .AddWtxidInv, 0 => true
  | .AddTx, 0 => true
  | .AddCoinbaseTx, 0 => true
  | _, _ => false

/-- Embedding of `Operation::is_block_begin` (`operation.rs:291-368`), with
`BeginPrefillTransactions` added among the Begin operations (modelled from the
spec's description of the prefill scope pair); `IncrementalSnapshot` is not a
scope operation. -/
def Operation.is_block_begin : Operation → Bool
  | .BeginBuildTx => true
  | .BeginBuildInventory => true
  | .BeginBuildTxInputs => true
  | .BeginBuildTxOutputs => true
  | .BeginWitnessStack => true
  | .BeginBlockTransactions => true
  | .BeginBuildCoinbaseTx => true
  | .BeginBuildCoinbaseTxOutputs => true
  | .BeginPrefillTransactions => true
  | _ => false

/-- Embedding of `Operation::is_block_end` (`operation.rs:393-470`), with
`EndPrefillTransactions` added among the End operations (modelled from the
spec). -/
def Operation.is_block_end : Operation → Bool
  | .EndBuildTx => true
  | .EndBuildTxInputs => true
  | .EndBuildTxOutputs => true
  | .EndBuildInventory => true
  | .EndWitnessStack => true
  | .EndBlockTransactions => true
  | .EndBuildCoinbaseTx => true
  | .EndBuildCoinbaseTxOutputs => true
  | .EndPrefillTransactions => true
  | _ => false

/-- Embedding of `Operation::is_matching_block_begin` (`operation.rs:377-391`),
with the prefill pair added (modelled from the spec). `self` is the End
operation and `other` the candidate Begin. -/
def Operation.is_matching_block_begin (op other : Operation) : Bool :=
  match other, op with
  | .BeginBuildTx, .EndBuildTx => true
  | .BeginBuildTxInputs, .EndBuildTxInputs => true
  | .BeginBuildTxOutputs, .EndBuildTxOutputs => true
  | .BeginBuildInventory, .EndBuildInventory => true
  | .BeginWitnessStack, .EndWitnessStack => true
  | .BeginBlockTransactions, .EndBlockTransactions => true
  | .BeginBuildCoinbaseTx, .EndBuildCoinbaseTx => true
  | .BeginBuildCoinbaseTxOutputs, .EndBuildCoinbaseTxOutputs => true
  | .BeginPrefillTransactions, .EndPrefillTransactions => true
  | _, _ => false

/-- The set of container-mutating operations named by the amended C9: the
operations for which `mutates_nth_input(0)` is true in the source. -/
def Operation.isContainerMutating : Operation → Bool
  | .AddTxInput => true
  | .AddTxOutput => true
  | .AddCoinbaseTxOutput => true
  | .TakeTxo => true
  | .AddWitness => true
  | .AddTxidInv => true
  | .AddTxidWithWitnessInv => true
  | .AddWtxidInv => true
  | .AddTx => true
  | .AddCoinbaseTx => true
  | _ => false

/-- C9 counterexample: the claim includes `AddCompactBlockInv` among the
operations with `mutates_nth_input(0) = true` (as one of "every
inventory-adding operation"), but the source returns `false` for it (and for
`AddBlockInv`, `AddBlockWithWitnessInv`, `AddFilteredBlockInv`), while
returning `true` for `AddCoinbaseTxOutput`, which the claim omits. -/
theorem C9_mutates_nth_input_counterexample :
    Operation.AddCompactBlockInv.mutates_nth_input 0 = false ∧
    Operation.AddBlockInv.mutates_nth_input 0 = false ∧
    Operation.AddBlockWithWitnessInv.mutates_nth_input 0 = false ∧
    Operation.AddFilteredBlockInv.mutates_nth_input 0 = false ∧
    Operation.AddCoinbaseTxOutput.mutates_nth_input 0 = true := by
  refine ⟨rfl, rfl, rfl, rfl, rfl⟩

/-- C9 (amended): `mutates_nth_input(i)` is true precisely when `i = 0` and
the operation is one of `AddTxInput`, `AddTxOutput`, `AddCoinbaseTxOutput`,
`TakeTxo`, `AddWitness`, `AddTxidInv`, `AddTxidWithWitnessInv`, `AddWtxidInv`,
`AddTx`, `AddCoinbaseTx` — the transaction-inventory adders but not the
block-oriented inventory adders (`AddCompactBlockInv`, `AddBlockInv`,
`AddBlockWithWitnessInv`, `AddFilteredBlockInv`) — and false for every other
operation and for every index `i ≥ 1`. -/
theorem C9_mutates_nth_input_characterization (op : Operation) (i : Nat) :
    op.mutates_nth_input i = (decide (i = 0) && op.isContainerMutating) := by
  cases op <;> cases i <;> rfl

/-- Embedding of `struct Instruction`: ordered input variable indices plus an
operation. -/
structure Instruction where
  inputs : List Nat
  operation : Operation

/-- Modelled from the spec: the program context carries program-wide facts;
the only field the verified claims consume is `num_nodes`
(`builder.context().num_nodes` in
`fuzzamoto-ir/src/generators/add_connection.rs`). -/
structure Context where
  num_nodes : Nat
deriving DecidableEq, Repr

/-- Embedding of `struct Program`: a context plus an ordered instruction
list. -/
structure Program where
  context : Context
  instructions : List Instruction

/-- One step of the scope-depth sweep of `find_valid_snapshot_position`
(`incremental_snapshot_stage.rs:213-218`): increment on a Begin, then
saturating-decrement on an End (Rust `saturating_sub` is `Nat` subtraction). -/
def stepDepth (depth : Nat) (instr : Instruction) : Nat :=
  let d1 := if instr.operation.is_block_begin then depth + 1 else depth
  if instr.operation.is_block_end then d1 - 1 else d1

/-- The scope depth after a list of instructions, starting from depth `d`. -/
def depthFrom (d : Nat) (instrs : List Instruction) : Nat :=
  instrs.foldl stepDepth d

/-- The scope depth after a list of instructions (starting at zero). -/
def scopeDepth (instrs : List Instruction) : Nat :=
  depthFrom 0 instrs

/-- The `valid_positions` accumulation loop of `find_valid_snapshot_position`
(`incremental_snapshot_stage.rs:205-223`): position `i` is recorded when the
depth before instruction `i` is zero, and the end-of-program index is recorded
when the final depth is zero. -/
def validPositionsAux (i depth : Nat) : List Instruction → List Nat
  | [] => if depth = 0 then [i] else []
  | instr :: rest =>
    (if depth = 0 then [i] else []) ++ validPositionsAux (i + 1) (stepDepth depth instr) rest

/-- All valid snapshot positions of an instruction list, in sweep order. -/
def validPositions (instrs : List Instruction) : List Nat :=
  validPositionsAux 0 0 instrs

/-- Helper of `minByKey`: Rust `Iterator::min_by_key` keeps the first element
attaining the minimum key, which the strict comparison reproduces. -/
def minByKeyAux (f : Nat → Nat) (best : Nat) : List Nat → Nat
  | [] => best
  | x :: xs => if f x < f best then minByKeyAux f x xs else minByKeyAux f best xs

/-- Embedding of `Iterator::min_by_key` on a list of positions. -/
def minByKey (f : Nat → Nat) : List Nat → Option Nat
  | [] => none
  | x :: xs => some (minByKeyAux f x xs)

/-- `(pos as isize - target as isize).unsigned_abs()` for the `usize` values
involved: the absolute difference. -/
def absDiff (a b : Nat) : Nat := max a b - min a b

/-- Embedding of `find_valid_snapshot_position`
(`incremental_snapshot_stage.rs:196-232`). -/
def find_valid_snapshot_position (program : Program) (target_pos : Nat) : Option Nat :=
  if program.instructions.isEmpty then none
  else
    minByKey (fun pos => absDiff pos (min target_pos program.instructions.length))
      (validPositions program.instructions)

/-- The spec's wording of the valid-position set: "the set of indices at which
scope depth is zero (plus `len` iff end-of-program scope depth is zero)". The
depth is computed as the source computes it (saturating decrements); the two
notions agree on every program whose Ends never outnumber Begins, in
particular on every validated program. -/
def specValidPositions (instrs : List Instruction) : List Nat :=
  (List.range instrs.length).filter (fun i => scopeDepth (instrs.take i) = 0)
    ++ (if scopeDepth instrs = 0 then [instrs.length] else [])

lemma le_of_mem_validPositionsAux :
    ∀ (rest : List Instruction) (i d j : Nat), j ∈ validPositionsAux i d rest → i ≤ j := by
  intro rest
  induction rest with
  | nil =>
    intro i d j hj
    simp only [validPositionsAux] at hj
    split at hj <;> simp_all
  | cons instr rest ih =>
    intro i d j hj
    simp only [validPositionsAux, List.mem_append] at hj
    rcases hj with hj | hj
    · split at hj <;> simp_all
    · exact le_trans (Nat.le_succ i) (ih (i + 1) _ j hj)

lemma pairwise_validPositionsAux :
    ∀ (rest : List Instruction) (i d : Nat),
      (validPositionsAux i d rest).Pairwise (· < ·) := by
  intro rest
  induction rest with
  | nil =>
    intro i d
    simp only [validPositionsAux]
    split <;> simp
  | cons instr rest ih =>
    intro i d
    simp only [validPositionsAux]
    refine List.pairwise_append.mpr ⟨?_, ih (i + 1) _, ?_⟩
    · split <;> simp
    · intro x hx y hy
      have hx0 : x = i := by
        split at hx <;> simp_all
      have := le_of_mem_validPositionsAux rest (i + 1) _ y hy
      omega

lemma mem_validPositionsAux :
    ∀ (rest : List Instruction) (i d j : Nat),
      j ∈ validPositionsAux i d rest ↔
        ((∃ k, k < rest.length ∧ j = i + k ∧ depthFrom d (rest.take k) = 0) ∨
          (j = i + rest.length ∧ depthFrom d rest = 0)) := by
  intro rest
  induction rest with
  | nil =>
    intro i d j
    simp only [validPositionsAux, depthFrom, List.length_nil, List.foldl_nil]
    constructor
    · intro hj
      split at hj <;> simp_all
    · intro hj
      rcases hj with ⟨k, hk, _, _⟩ | ⟨hj, hd⟩
      · omega
      · simp_all
  | cons instr rest ih =>
    intro i d j
    simp only [validPositionsAux, List.mem_append, ih (i + 1) (stepDepth d instr)]
    constructor
    · intro hj
      rcases hj with hj | hj | hj
      · have hj0 : j = i ∧ d = 0 := by split at hj <;> simp_all
        refine Or.inl ⟨0, by simp, by omega, by simp [depthFrom, hj0.2]⟩
      · obtain ⟨k, hk, hjk, hdep⟩ := hj
        refine Or.inl ⟨k + 1, by simpa using hk, by omega, ?_⟩
        simpa [depthFrom] using hdep
      · refine Or.inr ⟨by simpa using by omega, ?_⟩
        simpa [depthFrom] using hj.2
    · intro hj
      rcases hj with ⟨k, hk, hjk, hdep⟩ | ⟨hj, hd⟩
      · cases k with
        | zero =>
          left
          have hd0 : d = 0 := by simpa [depthFrom] using hdep
          simp [hd0, hjk]
        | succ k =>
          right; left
          refine ⟨k, by simpa using hk, by omega, ?_⟩
          simpa [depthFrom] using hdep
      · right; right
        refine ⟨by simp at hj ⊢; omega, ?_⟩
        simpa [depthFrom] using hd

lemma mem_validPositions (instrs : List Instruction) (j : Nat) :
    j ∈ validPositions instrs ↔
      ((j < instrs.length ∧ scopeDepth (instrs.take j) = 0) ∨
        (j = instrs.length ∧ scopeDepth instrs = 0)) := by
  rw [validPositions, mem_validPositionsAux]
  constructor
  · rintro (⟨k, hk, hjk, hdep⟩ | ⟨hj, hd⟩)
    · exact Or.inl ⟨by omega, by simpa [scopeDepth, hjk] using hdep⟩
    · exact Or.inr ⟨by omega, hd⟩
  · rintro (⟨hj, hdep⟩ | ⟨hj, hd⟩)
    · exact Or.inl ⟨j, hj, by omega, hdep⟩
    · exact Or.inr ⟨by omega, hd⟩

lemma mem_specValidPositions (instrs : List Instruction) (j : Nat) :
    j ∈ specValidPositions instrs ↔
      ((j < instrs.length ∧ scopeDepth (instrs.take j) = 0) ∨
        (j = instrs.length ∧ scopeDepth instrs = 0)) := by
  simp only [specValidPositions, List.mem_append, List.mem_filter, List.mem_range,
    decide_eq_true_eq]
  constructor
  · rintro (⟨hj, hdep⟩ | hj)
    · exact Or.inl ⟨hj, hdep⟩
    · split at hj <;> simp_all
  · rintro (⟨hj, hdep⟩ | ⟨hj, hd⟩)
    · exact Or.inl ⟨hj, hdep⟩
    · right
      simp [hd, hj]

lemma validPositions_iff_spec (instrs : List Instruction) (j : Nat) :
    j ∈ validPositions instrs ↔ j ∈ specValidPositions instrs := by
  rw [mem_validPositions, mem_specValidPositions]

lemma minByKeyAux_mem (f : Nat → Nat) :
    ∀ (xs : List Nat) (best : Nat), minByKeyAux f best xs ∈ best :: xs := by
  intro xs
  induction xs with
  | nil => intro best; simp [minByKeyAux]
  | cons x xs ih =>
    intro best
    simp only [minByKeyAux]
    split
    · have := ih x
      simp only [List.mem_cons] at this ⊢
      tauto
    · have := ih best
      simp only [List.mem_cons] at this ⊢
      tauto

lemma minByKeyAux_le_best (f : Nat → Nat) :
    ∀ (xs : List Nat) (best : Nat), f (minByKeyAux f best xs) ≤ f best := by
  intro xs
  induction xs with
  | nil => intro best; simp [minByKeyAux]
  | cons y xs ih =>
    intro best
    simp only [minByKeyAux]
    split
    · exact le_trans (ih y) (by omega)
    · exact ih best

lemma minByKeyAux_le_mem (f : Nat → Nat) :
    ∀ (xs : List Nat) (best x : Nat), x ∈ xs → f (minByKeyAux f best xs) ≤ f x := by
  intro xs
  induction xs with
  | nil => intro best x hx; simp at hx
  | cons y xs ih =>
    intro best x hx
    rcases List.mem_cons.mp hx with rfl | hx2
    · simp only [minByKeyAux]
      split
      · exact minByKeyAux_le_best f xs x
      · exact le_trans (minByKeyAux_le_best f xs best) (by omega)
    · simp only [minByKeyAux]
      split
      · exact ih y x hx2
      · exact ih best x hx2

lemma minByKeyAux_le (f : Nat → Nat) (xs : List Nat) (best x : Nat)
    (hx : x ∈ best :: xs) : f (minByKeyAux f best xs) ≤ f x := by
  rcases List.mem_cons.mp hx with rfl | hx2
  · exact minByKeyAux_le_best f xs x
  · exact minByKeyAux_le_mem f xs best x hx2

lemma minByKeyAux_first (f : Nat → Nat) :
    ∀ (xs : List Nat) (best : Nat), (best :: xs).Pairwise (· < ·) →
      ∀ x ∈ best :: xs, f x = f (minByKeyAux f best xs) → minByKeyAux f best xs ≤ x := by
  intro xs
  induction xs with
  | nil =>
    intro best _ x hx _
    simp only [List.mem_cons, List.not_mem_nil, or_false] at hx
    simp [minByKeyAux, hx]
  | cons y xs ih =>
    intro best hsorted x hx heq
    have hsorted' := List.pairwise_cons.mp hsorted
    have hsyx := List.pairwise_cons.mp hsorted'.2
    by_cases hlt : f y < f best
    · simp only [minByKeyAux, if_pos hlt] at heq ⊢
      rcases List.mem_cons.mp hx with rfl | hx2
      · exfalso
        have hle : f (minByKeyAux f y xs) ≤ f y := minByKeyAux_le_best f xs y
        omega
      · exact ih y hsorted'.2 x hx2 heq
    · simp only [minByKeyAux, if_neg hlt] at heq ⊢
      have hpair : List.Pairwise (· < ·) (best :: xs) := by
        refine List.pairwise_cons.mpr ⟨?_, hsyx.2⟩
        intro z hz
        exact hsorted'.1 z (by simp [hz])
      rcases List.mem_cons.mp hx with rfl | hx2
      · exact ih x hpair x (by simp) heq
      · rcases List.mem_cons.mp hx2 with rfl | hx3
        · have h1 : f (minByKeyAux f best xs) ≤ f best := minByKeyAux_le_best f xs best
          have h2 : f best ≤ f x := by omega
          have h3 : f best = f (minByKeyAux f best xs) := by omega
          have h4 : minByKeyAux f best xs ≤ best := ih best hpair best (by simp) h3
          have h5 : best < x := hsorted'.1 x (by simp)
          omega
        · exact ih best hpair x (by simp [hx3]) heq

lemma absDiff_self (a : Nat) : absDiff a a = 0 := by
  simp [absDiff]

lemma absDiff_eq_zero {a b : Nat} (h : absDiff a b = 0) : a = b := by
  simp only [absDiff] at h
  omega

/-- The 11-instruction program of scenario S2: `[LoadNode,
LoadConnectionType, AddConnection, LoadTxVersion, LoadLockTime, BeginBuildTx,
BeginBuildTxInputs, EndBuildTxInputs, BeginBuildTxOutputs, EndBuildTxOutputs,
EndBuildTx]`, with data-flow inputs wired as the builder would produce them. -/
def s2Program : Program :=
  { context := { num_nodes := 1 }
    instructions :=
      [ { inputs := [], operation := .LoadNode 0 }
      , { inputs := [], operation := .LoadConnectionType "inbound".toList }
      , { inputs := [0, 1], operation := .AddConnection }
      , { inputs := [], operation := .LoadTxVersion 2 }
      , { inputs := [], operation := .LoadLockTime 0 }
      , { inputs := [3, 4], operation := .BeginBuildTx }
      , { inputs := [], operation := .BeginBuildTxInputs }
      , { inputs := [6], operation := .EndBuildTxInputs }
      , { inputs := [7], operation := .BeginBuildTxOutputs }
      , { inputs := [8], operation := .EndBuildTxOutputs }
      , { inputs := [5, 7, 9], operation := .EndBuildTx } ] }

/-- C1 counterexample: for the empty program the claim's position set is
`{0}` (the end-of-program index qualifies, as the scope depth after zero
instructions is zero), but `find_valid_snapshot_position` returns `None` for
every target because of its explicit `is_empty` early return — so the set of
positions it may return (`∅`) differs from the claimed set. -/
theorem C1_empty_program_counterexample :
    find_valid_snapshot_position { context := { num_nodes := 1 }, instructions := [] } 0 = none ∧
    0 ∈ specValidPositions ([] : List Instruction) := by
  constructor
  · rfl
  · simp [specValidPositions, scopeDepth, depthFrom]

/-- C1 (amended): for every program with at least one instruction, every
position `find_valid_snapshot_position` returns lies in the set of
instruction indices at which Begin/End scope depth is zero plus the
end-of-program index `len` iff the depth after all instructions is zero
(`specValidPositions`), and is the member of that set closest in absolute
distance to the target clamped to `len`, the smaller position winning ties;
conversely every member of that set is returned when it is itself the
target; and on the 11-instruction S2 program with target 7 the result is
`Some 5`. (For the empty program the function returns `None` although the
claimed set is `{0}`.) -/
theorem C1_find_valid_snapshot_position :
    (∀ (p : Program) (t r : Nat), find_valid_snapshot_position p t = some r →
        r ∈ specValidPositions p.instructions ∧
        ∀ v ∈ specValidPositions p.instructions,
          absDiff r (min t p.instructions.length) ≤ absDiff v (min t p.instructions.length) ∧
          (absDiff r (min t p.instructions.length) = absDiff v (min t p.instructions.length) →
            r ≤ v)) ∧
    (∀ (p : Program) (v : Nat), p.instructions ≠ [] →
        v ∈ specValidPositions p.instructions →
        find_valid_snapshot_position p v = some v) ∧
    find_valid_snapshot_position s2Program 7 = some 5 := by
  refine ⟨?_, ?_, by rfl⟩
  · intro p t r h
    unfold find_valid_snapshot_position at h
    split at h
    · exact absurd h (by simp)
    · cases hvp : validPositions p.instructions with
      | nil => rw [hvp] at h; exact absurd h (by simp [minByKey])
      | cons x xs =>
        rw [hvp] at h
        simp only [minByKey, Option.some.injEq] at h
        subst h
        have hpair : (x :: xs).Pairwise (· < ·) := by
          have := pairwise_validPositionsAux p.instructions 0 0
          rwa [show validPositionsAux 0 0 p.instructions = validPositions p.instructions from rfl,
            hvp] at this
        constructor
        · rw [← validPositions_iff_spec, hvp]
          exact minByKeyAux_mem _ xs x
        · intro v hv
          have hvmem : v ∈ x :: xs := by
            rw [← hvp, validPositions_iff_spec]
            exact hv
          refine ⟨minByKeyAux_le (fun pos => absDiff pos (min t p.instructions.length))
            xs x v hvmem, ?_⟩
          intro heq
          exact minByKeyAux_first (fun pos => absDiff pos (min t p.instructions.length))
            xs x hpair v hvmem heq.symm
  · intro p v hne hv
    have hvmem : v ∈ validPositions p.instructions := by
      rw [validPositions_iff_spec]; exact hv
    have hvle : v ≤ p.instructions.length := by
      rcases (mem_specValidPositions p.instructions v).mp hv with ⟨h1, _⟩ | ⟨h1, _⟩ <;> omega
    unfold find_valid_snapshot_position
    split
    · rename_i hemp
      exact absurd (List.isEmpty_iff.mp hemp) hne
    · cases hvp : validPositions p.instructions with
      | nil => rw [hvp] at hvmem; simp at hvmem
      | cons x xs =>
        rw [hvp] at hvmem
        simp only [minByKey, Option.some.injEq]
        have hmin : min v p.instructions.length = v := by omega
        rw [hmin]
        have hle : absDiff (minByKeyAux (fun pos => absDiff pos v) x xs) v ≤ absDiff v v :=
          minByKeyAux_le (fun pos => absDiff pos v) xs x v hvmem
        rw [absDiff_self] at hle
        exact absDiff_eq_zero (Nat.le_zero.mp hle)

/-- Witness for C1: the amended theorem applied to the concrete S2 program,
at target 7 (first part) and at target 5 (second part). -/
theorem C1_find_valid_snapshot_position_witness :
    (5 ∈ specValidPositions s2Program.instructions) ∧
    find_valid_snapshot_position s2Program 5 = some 5 :=
  ⟨(C1_find_valid_snapshot_position.1 s2Program 7 5 (by rfl)).1,
    C1_find_valid_snapshot_position.2.1 s2Program 5 (by simp [s2Program]) (by decide)⟩

/-- Embedding of `IncrementalSnapshotStage::choose_position`
(`incremental_snapshot_stage.rs:48-71`) for the `Balanced` policy. The
randomness is supplied as an explicit fair-coin outcome `coin` and a raw draw
`draw` (Rust `rand.below(n)` is modelled as `draw % n`). -/
def choose_position (coin : Bool) (draw : Nat) (program_len : Nat) : Option Nat :=
  if program_len = 0 then none
  else if program_len = 1 then some 0
  else if coin then some (draw % max (program_len / 2) 1)
  else some (program_len / 2 + draw % (program_len - program_len / 2))

/-- The observable actions of `IncrementalSnapshotStage::perform`
(`incremental_snapshot_stage.rs:85-177`), in program order: invoking the
inner stage, setting the executor's delete-incremental-snapshot flag,
applying the executor options, writing `frozen_prefix_len` on the input, and
running the target directly on the raw current input. -/
inductive StageEvent where
  | innerPerform
  | setDeleteIncrementalSnapshot (b : Bool)
  | applyOptions
  | setFrozenPrefixLen (v : Option Nat)
  | runTargetRaw
deriving DecidableEq, Repr

instance : BEq StageEvent := instBEqOfDecidableEq

/-- The replay loop of `perform` (`incremental_snapshot_stage.rs:145-162`):
for reuse counts `1..=max_reuse_count`, the last count sets the
delete-incremental-snapshot flag, applies it and runs the target raw; every
other count invokes the inner stage once. -/
def replayLoop (maxReuse : Nat) : List StageEvent :=
  (List.range' 1 maxReuse).flatMap (fun reuse =>
    if reuse = maxReuse then
      [.setDeleteIncrementalSnapshot true, .applyOptions, .runTargetRaw]
    else [.innerPerform])

/-- Event-trace embedding of `IncrementalSnapshotStage::perform`
(`incremental_snapshot_stage.rs:85-177`): disabled, empty-program and
0.04-coin paths forward to the inner stage; otherwise the chosen position is
adjusted by `find_valid_snapshot_position`, and on success the snapshot is
requested (flag false + apply), `frozen_prefix_len` is stored, the replay
loop runs, and `frozen_prefix_len` is cleared; on failure the stage returns
with no action. -/
def stagePerform (enabled : Bool) (prog : Program) (coin04 coinChoose : Bool)
    (drawChoose maxReuse : Nat) : List StageEvent :=
  if !enabled then [.innerPerform]
  else if prog.instructions.length = 0 then [.innerPerform]
  else if coin04 then [.innerPerform]
  else
    match (choose_position coinChoose drawChoose prog.instructions.length).bind
        (fun pos => find_valid_snapshot_position prog pos) with
    | some prefixLen =>
      [.setDeleteIncrementalSnapshot false, .applyOptions,
        .setFrozenPrefixLen (some prefixLen)]
        ++ replayLoop maxReuse ++ [.setFrozenPrefixLen none]
    | none => []

lemma flatMap_all_singleton {α β : Type} (f : α → List β) (e : β) :
    ∀ l : List α, (∀ x ∈ l, f x = [e]) → l.flatMap f = List.replicate l.length e := by
  intro l
  induction l with
  | nil => intro _; simp
  | cons x l ih =>
    intro h
    simp only [List.flatMap_cons, List.length_cons, List.replicate_succ]
    rw [h x (by simp), ih (fun y hy => h y (by simp [hy]))]
    rfl

lemma replayLoop_eq (m : Nat) (hm : 1 ≤ m) :
    replayLoop m = List.replicate (m - 1) .innerPerform
      ++ [.setDeleteIncrementalSnapshot true, .applyOptions, .runTargetRaw] := by
  obtain ⟨k, rfl⟩ : ∃ k, m = k + 1 := ⟨m - 1, by omega⟩
  unfold replayLoop
  rw [List.range'_concat, List.flatMap_append]
  have h1 : (List.range' 1 k).flatMap (fun reuse =>
      if reuse = k + 1 then
        ([.setDeleteIncrementalSnapshot true, .applyOptions, .runTargetRaw] : List StageEvent)
      else [.innerPerform]) = List.replicate k .innerPerform := by
    have hlen : (List.range' 1 k).length = k := by simp
    rw [flatMap_all_singleton (fun reuse =>
      if reuse = k + 1 then
        ([.setDeleteIncrementalSnapshot true, .applyOptions, .runTargetRaw] : List StageEvent)
      else [.innerPerform]) .innerPerform (List.range' 1 k) ?_, hlen]
    intro x hx
    have hxk : x < 1 + k := (List.mem_range'_1.mp hx).2
    simp only []
    rw [if_neg (show x ≠ k + 1 by omega)]
  rw [h1]
  have h2 : 1 + 1 * k = k + 1 := by omega
  rw [h2]
  simp

/-- C2: whenever the stage is enabled, the program is non-empty, the 0.04
root-bypass coin is not taken, a valid snapshot position `pl` is found, and
`max_reuse_count ≥ 1`, the stage requests the snapshot (delete flag false +
apply), stores `frozen_prefix_len = Some pl`, invokes the inner stage exactly
once per reuse count strictly below `max_reuse_count`, then on the final
count sets the delete-incremental-snapshot flag to true, applies it, and runs
the target exactly once directly on the raw current input, and finally resets
`frozen_prefix_len` to `None` (the trace's last action). -/
theorem C2_replay_loop_behavior (enabled : Bool) (prog : Program)
    (coin04 coinChoose : Bool) (drawChoose maxReuse pl : Nat)
    (hen : enabled = true) (hne : prog.instructions ≠ [])
    (hcoin : coin04 = false)
    (hpos : (choose_position coinChoose drawChoose prog.instructions.length).bind
      (fun pos => find_valid_snapshot_position prog pos) = some pl)
    (hm : 1 ≤ maxReuse) :
    stagePerform enabled prog coin04 coinChoose drawChoose maxReuse =
      ([.setDeleteIncrementalSnapshot false, .applyOptions, .setFrozenPrefixLen (some pl)]
        ++ List.replicate (maxReuse - 1) .innerPerform
        ++ [.setDeleteIncrementalSnapshot true, .applyOptions, .runTargetRaw])
        ++ [.setFrozenPrefixLen none] ∧
    (stagePerform enabled prog coin04 coinChoose drawChoose maxReuse).count
      .innerPerform = maxReuse - 1 ∧
    (stagePerform enabled prog coin04 coinChoose drawChoose maxReuse).count
      .runTargetRaw = 1 ∧
    (stagePerform enabled prog coin04 coinChoose drawChoose maxReuse).getLast?
      = some (.setFrozenPrefixLen none) := by
  subst hen hcoin
  have hlen : ¬ (prog.instructions.length = 0) := by
    intro h
    exact hne (List.length_eq_zero.mp h)
  have htrace : stagePerform true prog false coinChoose drawChoose maxReuse =
      ([.setDeleteIncrementalSnapshot false, .applyOptions, .setFrozenPrefixLen (some pl)]
        ++ List.replicate (maxReuse - 1) .innerPerform
        ++ [.setDeleteIncrementalSnapshot true, .applyOptions, .runTargetRaw])
        ++ [.setFrozenPrefixLen none] := by
    unfold stagePerform
    rw [hpos]
    simp only [Bool.not_true, Bool.false_eq_true, if_false, if_neg hlen]
    rw [replayLoop_eq maxReuse hm]
    simp
  refine ⟨htrace, ?_, ?_, ?_⟩
  · rw [htrace]
    simp [List.count_append, List.count_replicate, List.count_cons, List.count_nil]
  · rw [htrace]
    simp [List.count_append, List.count_replicate, List.count_cons, List.count_nil]
  · rw [htrace, List.getLast?_concat]

/-- Witness for C2 with `max_reuse_count = 3` on the concrete S2 program (a
forced `enabled` stage, non-0.04 roll, chosen position 0): the inner stage is
invoked exactly twice and the raw target executed exactly once, with the
delete flag set true immediately before that run. -/
theorem C2_replay_loop_behavior_witness :
    (stagePerform true s2Program false true 0 3).count .innerPerform = 2 ∧
    (stagePerform true s2Program false true 0 3).count .runTargetRaw = 1 ∧
    (stagePerform true s2Program false true 0 3).getLast?
      = some (.setFrozenPrefixLen none) := by
  have h := C2_replay_loop_behavior true s2Program false true 0 3 0 rfl
    (by simp [s2Program]) rfl (by rfl) (by omega)
  exact ⟨by simpa using h.2.1, h.2.2.1, h.2.2.2⟩

/-- C10: with the stage enabled, a non-empty program, the 0.04 bypass not
taken and a valid position `pl` found, but `max_reuse_count = 0`, the replay
loop body never executes: the trace requests the snapshot (delete flag false
+ apply) and writes then clears `frozen_prefix_len`, but contains no inner
stage invocation, never sets the delete-incremental-snapshot flag to true,
and runs no target — so the forced delete-and-run cleanup exists only when
`max_reuse_count ≥ 1`. -/
theorem C10_zero_reuse_skips_cleanup (enabled : Bool) (prog : Program)
    (coin04 coinChoose : Bool) (drawChoose pl : Nat)
    (hen : enabled = true) (hne : prog.instructions ≠ [])
    (hcoin : coin04 = false)
    (hpos : (choose_position coinChoose drawChoose prog.instructions.length).bind
      (fun pos => find_valid_snapshot_position prog pos) = some pl) :
    stagePerform enabled prog coin04 coinChoose drawChoose 0 =
      [.setDeleteIncrementalSnapshot false, .applyOptions,
        .setFrozenPrefixLen (some pl), .setFrozenPrefixLen none] ∧
    .innerPerform ∉ stagePerform enabled prog coin04 coinChoose drawChoose 0 ∧
    .setDeleteIncrementalSnapshot true ∉
      stagePerform enabled prog coin04 coinChoose drawChoose 0 ∧
    .runTargetRaw ∉ stagePerform enabled prog coin04 coinChoose drawChoose 0 ∧
    .setDeleteIncrementalSnapshot false ∈
      stagePerform enabled prog coin04 coinChoose drawChoose 0 := by
  subst hen hcoin
  have hlen : ¬ (prog.instructions.length = 0) := by
    intro h
    exact hne (List.length_eq_zero.mp h)
  have htrace : stagePerform true prog false coinChoose drawChoose 0 =
      [.setDeleteIncrementalSnapshot false, .applyOptions,
        .setFrozenPrefixLen (some pl), .setFrozenPrefixLen none] := by
    unfold stagePerform
    rw [hpos]
    simp only [Bool.not_true, Bool.false_eq_true, if_false, if_neg hlen]
    rfl
  rw [htrace]
  refine ⟨rfl, by simp, by simp, by simp, by simp⟩

/-- Witness for C10 on the concrete S2 program with chosen position 0. -/
theorem C10_zero_reuse_skips_cleanup_witness :
    stagePerform true s2Program false true 0 0 =
      [.setDeleteIncrementalSnapshot false, .applyOptions,
        .setFrozenPrefixLen (some 0), .setFrozenPrefixLen none] :=
  (C10_zero_reuse_skips_cleanup true s2Program false true 0 0 rfl
    (by simp [s2Program]) rfl (by rfl)).1

/-- Embedding of `enum ProgramValidationError`: the closed error set named by
`operation.rs` (`check_input_types`) and the spec's §4.2 validator. -/
inductive ProgramValidationError where
  | InvalidNumberOfInputs (is expected : Nat)
  | InvalidVariableType (is : Option Variable) (expected : Variable)
  | UseOfOutOfScopeVariable
  | UnmatchedBlockEnd
  | UnterminatedBlock
  | UnknownVariable
deriving DecidableEq, Repr

/-- Embedding of `Operation::get_output_variables` (`operation.rs:510-591`);
the modelled compact-block operations follow the spec (`LoadNonce → Nonce`,
`EndPrefillTransactions → ConstPrefillTransactions`,
`BuildCompactBlockWithPrefill → CompactBlock`, `AddConnection → Connection`,
the rest produce nothing). -/
def Operation.get_output_variables : Operation → List Variable
  | .LoadBytes _ => [.Bytes]
  | .LoadMsgType _ => [.MsgType]
  | .LoadNode _ => [.Node]
  | .LoadConnection _ => [.Connection]
  | .LoadConnectionType _ => [.ConnectionType]
  | .LoadDuration _ => [.Duration]
  | .LoadBlockHeight _ => [.BlockHeight]
  | .LoadCompactFilterType _ => [.CompactFilterType]
  | .SendRawMessage => []
  | .AdvanceTime => [.Time]
  | .LoadTime _ => [.Time]
  | .SetTime => []
  | .Nop outputs _ => List.replicate outputs .Nop
  | .BuildPayToWitnessScriptHash => [.Scripts]
  | .BuildPayToScriptHash => [.Scripts]
  | .BuildRawScripts => [.Scripts]
  | .BuildOpReturnScripts => [.Scripts]
  | .BuildPayToAnchor => [.Scripts]
  | .BuildPayToPubKey => [.Scripts]
  | .BuildPayToPubKeyHash => [.Scripts]
  | .BuildPayToWitnessPubKeyHash => [.Scripts]
  | .LoadTxo _ _ _ _ _ => [.Txo]
  | .LoadAmount _ => [.ConstAmount]
  | .LoadTxVersion _ => [.TxVersion]
  | .LoadBlockVersion _ => [.BlockVersion]
  | .LoadLockTime _ => [.LockTime]
  | .LoadSequence _ => [.Sequence]
  | .LoadSize _ => [.Size]
  | .TakeTxo => [.Txo]
  | .LoadHeader _ _ _ _ _ _ _ => [.Header]
  | .LoadPrivateKey _ => [.PrivateKey]
  | .LoadSigHashFlags _ => [.SigHashFlags]
  | .BeginBuildTx => []
  | .EndBuildTx => [.ConstTx]
  | .BeginBuildTxInputs => []
  | .EndBuildTxInputs => [.ConstTxInputs]
  | .BeginBuildTxOutputs => []
  | .EndBuildTxOutputs => [.ConstTxOutputs]
  | .AddTxInput => []
  | .AddTxOutput => []
  | .BeginBuildCoinbaseTx => []
  | .EndBuildCoinbaseTx => [.CoinbaseTx]
  | .BuildCoinbaseTxInput => [.CoinbaseInput]
  | .BeginBuildCoinbaseTxOutputs => []
  | .EndBuildCoinbaseTxOutputs => [.ConstTxOutputs]
  | .AddCoinbaseTxOutput => []
  | .BeginBuildInventory => []
  | .EndBuildInventory => [.ConstInventory]
  | .AddCompactBlockInv => []
  | .AddTxidInv => []
  | .AddTxidWithWitnessInv => []
  | .AddWtxidInv => []
  | .AddBlockInv => []
  | .AddBlockWithWitnessInv => []
  | .AddFilteredBlockInv => []
  | .BeginWitnessStack => []
  | .EndWitnessStack => [.ConstWitnessStack]
  | .AddWitness => []
  | .BuildBlock => [.Header, .Block]
  | .AddTx => []
  | .AddCoinbaseTx => []
  | .EndBlockTransactions => [.ConstBlockTransactions]
  | .BeginBlockTransactions => []
  | .SendTx => []
  | .SendTxNoWit => []
  | .SendGetData => []
  | .SendInv => []
  | .SendHeader => []
  | .SendBlock => []
  | .SendBlockNoWit => []
  | .SendGetCFilters => []
  | .SendGetCFHeaders => []
  | .SendGetCFCheckpt => []
  | .IncrementalSnapshot => []
  | .AddConnection => [.Connection]
  | .LoadNonce _ => [.Nonce]
  | .BeginPrefillTransactions => []
  | .EndPrefillTransactions => [.ConstPrefillTransactions]
  | .AddPrefillTx => []
  | .BuildCompactBlockWithPrefill => [.CompactBlock]
  | .SendCompactBlock => []

/-- Embedding of `Operation::get_input_variables` (`operation.rs:593-720`);
the modelled compact-block operations follow the spec's generator usage
(`AddPrefillTx(list, tx_list, tx)`, `BuildCompactBlockWithPrefill(block,
nonce, prefill)`, `SendCompactBlock(connection, cmpct)`,
`AddConnection(node, connection_type)`). -/
def Operation.get_input_variables : Operation → List Variable
  | .SendRawMessage => [.Connection, .MsgType, .Bytes]
  | .AdvanceTime => [.Time, .Duration]
  | .SetTime => [.Time]
  | .BuildPayToWitnessScriptHash => [.Bytes, .ConstWitnessStack]
  | .BuildPayToScriptHash => [.Bytes, .ConstWitnessStack]
  | .BuildRawScripts => [.Bytes, .Bytes, .ConstWitnessStack]
  | .BuildOpReturnScripts => [.Size]
  | .BuildPayToPubKey => [.PrivateKey, .SigHashFlags]
  | .BuildPayToPubKeyHash => [.PrivateKey, .SigHashFlags]
  | .BuildPayToWitnessPubKeyHash => [.PrivateKey, .SigHashFlags]
  | .BeginBuildTx => [.TxVersion, .LockTime]
  | .EndBuildTx => [.MutTx, .ConstTxInputs, .ConstTxOutputs]
  | .EndBuildTxInputs => [.MutTxInputs]
  | .EndBuildTxOutputs => [.MutTxOutputs]
  | .AddTxInput => [.MutTxInputs, .Txo, .Sequence]
  | .AddTxOutput => [.MutTxOutputs, .Scripts, .ConstAmount]
  | .BeginBuildTxOutputs => [.ConstTxInputs]
  | .BeginBuildCoinbaseTx => [.TxVersion, .LockTime]
  | .EndBuildCoinbaseTx => [.MutTx, .CoinbaseInput, .ConstTxOutputs]
  | .BuildCoinbaseTxInput => [.Header, .Sequence]
  | .BeginBuildCoinbaseTxOutputs => [.CoinbaseInput]
  | .EndBuildCoinbaseTxOutputs => [.MutTxOutputs]
  | .AddCoinbaseTxOutput => [.MutTxOutputs, .Scripts, .ConstAmount]
  | .TakeTxo => [.ConstTx]
  | .AddWitness => [.MutWitnessStack, .Bytes]
  | .EndWitnessStack => [.MutWitnessStack]
  | .SendTx => [.Connection, .ConstTx]
  | .SendTxNoWit => [.Connection, .ConstTx]
  | .EndBuildInventory => [.MutInventory]
  | .AddCompactBlockInv => [.MutInventory, .Block]
  | .AddTxidInv => [.MutInventory, .ConstTx]
  | .AddTxidWithWitnessInv => [.MutInventory, .ConstTx]
  | .AddWtxidInv => [.MutInventory, .ConstTx]
  | .AddBlockInv => [.MutInventory, .Block]
  | .AddBlockWithWitnessInv => [.MutInventory, .Block]
  | .AddFilteredBlockInv => [.MutInventory, .Block]
  | .BuildBlock => [.Header, .Time, .BlockVersion, .ConstBlockTransactions]
  | .AddTx => [.MutBlockTransactions, .ConstTx]
  | .AddCoinbaseTx => [.MutBlockTransactions, .CoinbaseTx]
  | .EndBlockTransactions => [.MutBlockTransactions]
  | .SendGetData => [.Connection, .ConstInventory]
  | .SendInv => [.Connection, .ConstInventory]
  | .SendHeader => [.Connection, .Header]
  | .SendBlock => [.Connection, .Block]
  | .SendBlockNoWit => [.Connection, .Block]
  | .SendGetCFilters => [.Connection, .CompactFilterType, .BlockHeight, .Header]
  | .SendGetCFHeaders => [.Connection, .CompactFilterType, .BlockHeight, .Header]
  | .SendGetCFCheckpt => [.Connection, .CompactFilterType, .Header]
  | .IncrementalSnapshot => []
  | .AddConnection => [.Node, .ConnectionType]
  | .LoadNonce _ => []
  | .BeginPrefillTransactions => []
  | .EndPrefillTransactions => [.MutPrefillTransactions]
  | .AddPrefillTx => [.MutPrefillTransactions, .ConstBlockTransactions, .ConstTx]
  | .BuildCompactBlockWithPrefill => [.Block, .Nonce, .ConstPrefillTransactions]
  | .SendCompactBlock => [.Connection, .CompactBlock]
  | _ => []

/-- Embedding of `Operation::get_inner_output_variables`
(`operation.rs:722-802`), with the modelled `BeginPrefillTransactions`
exposing the mutable prefill list inside its scope. -/
def Operation.get_inner_output_variables : Operation → List Variable
  | .BeginBuildTx => [.MutTx]
  | .BeginBuildTxInputs => [.MutTxInputs]
  | .BeginBuildTxOutputs => [.MutTxOutputs]
  | .BeginWitnessStack => [.MutWitnessStack]
  | .BeginBuildInventory => [.MutInventory]
  | .BeginBlockTransactions => [.MutBlockTransactions]
  | .BeginBuildCoinbaseTx => [.MutTx]
  | .BeginBuildCoinbaseTxOutputs => [.MutTxOutputs]
  | .BeginPrefillTransactions => [.MutPrefillTransactions]
  | .Nop _ inner_outputs => List.replicate inner_outputs .Nop
  | _ => []

/-- Modelled from the spec (§4.3): one frame of the builder's scope stack — a
Begin operation together with the arena indices of the inner-output
variables it exposed. -/
structure ScopeFrame where
  begin_op : Operation
  inner_indices : List Nat

/-- Modelled from the spec (§4.2, §4.3): the builder/validator state — the
program under construction, the variable arena (`kind` and `in_scope` flag,
indexed positionally), the stack of active Begin operations, and the map from
each `Block` variable to its `(ConstBlockTransactions index, ConstTx
indices)` pair. -/
structure BuilderState where
  context : Context
  instructions : List Instruction
  vars : List (Variable × Bool)
  scopes : List ScopeFrame
  blockVars : List (Nat × Nat × List Nat)

/-- Mark the variables at the given arena indices out of scope (used when an
End pops its Begin frame); `i0` is the index of the first listed variable. -/
def markOutFrom (i0 : Nat) (idxs : List Nat) : List (Variable × Bool) → List (Variable × Bool)
  | [] => []
  | kv :: rest => (if i0 ∈ idxs then (kv.1, false) else kv) :: markOutFrom (i0 + 1) idxs rest

/-- Mark the variables at the given arena indices out of scope. -/
def markOut (vars : List (Variable × Bool)) (idxs : List Nat) : List (Variable × Bool) :=
  markOutFrom 0 idxs vars

/-- Modelled from the spec (§4.2 steps 1-2): check each input index against
the arena (known, in scope, kind equal to the formal input type), after the
arity check of `check_input_types` (`operation.rs:484-508`). -/
def inputsOkGo (vars : List (Variable × Bool)) :
    List Nat → List Variable → Except ProgramValidationError Unit
  | [], _ => .ok ()
  | idx :: rest, [] => .ok ()
  | idx :: rest, exp :: erest =>
    match vars.get? idx with
    | none => .error .UnknownVariable
    | some kv =>
      if kv.2 = false then .error .UseOfOutOfScopeVariable
      else if kv.1 ≠ exp then .error (.InvalidVariableType (some kv.1) exp)
      else inputsOkGo vars rest erest

/-- Input validation of a single instruction against the current arena. -/
def inputsOk (vars : List (Variable × Bool)) (inputs : List Nat)
    (expected : List Variable) : Except ProgramValidationError Unit :=
  if inputs.length = expected.length then inputsOkGo vars inputs expected
  else .error (.InvalidNumberOfInputs inputs.length expected.length)

/-- Modelled from the spec (§4.2 steps 3-5 and §4.3 `append`): validate one
instruction against the current state and apply it — an End must match the
top of the scope stack, pops it and hides its inner outputs before
allocating the `Const*` outputs; a Begin pushes a frame and allocates its
inner outputs; every other operation allocates its regular outputs. Returns
the arena indices of the newly visible outputs (for a Begin, the inner
outputs — the generators `.pop()` the last of these). The spec's `Block`
bookkeeping map is read but not maintained here (no verified claim consumes
entries created after the initial state). -/
def builderAppend (st : BuilderState) (instr : Instruction) :
    Except ProgramValidationError (List Nat × BuilderState) :=
  match inputsOk st.vars instr.inputs instr.operation.get_input_variables with
  | .error e => .error e
  | .ok () =>
    if instr.operation.is_block_end then
      match st.scopes with
      | [] => .error .UnmatchedBlockEnd
      | frame :: restScopes =>
        if instr.operation.is_matching_block_begin frame.begin_op then
          let vars1 := markOut st.vars frame.inner_indices
          let outs := instr.operation.get_output_variables
          .ok ((List.range outs.length).map (· + vars1.length),
            { st with
              instructions := st.instructions ++ [instr]
              vars := vars1 ++ outs.map (fun k => (k, true))
              scopes := restScopes })
        else .error .UnmatchedBlockEnd
    else if instr.operation.is_block_begin then
      let outs := instr.operation.get_output_variables
      let inners := instr.operation.get_inner_output_variables
      let innerIdxs := (List.range inners.length).map (· + (st.vars.length + outs.length))
      .ok ((List.range outs.length).map (· + st.vars.length) ++ innerIdxs,
        { st with
          instructions := st.instructions ++ [instr]
          vars := st.vars ++ outs.map (fun k => (k, true))
            ++ inners.map (fun k => (k, true))
          scopes := { begin_op := instr.operation, inner_indices := innerIdxs } :: st.scopes })
    else
      let outs := instr.operation.get_output_variables
      .ok ((List.range outs.length).map (· + st.vars.length),
        { st with
          instructions := st.instructions ++ [instr]
          vars := st.vars ++ outs.map (fun k => (k, true)) })

/-- The empty builder state over a context. -/
def initialState (ctx : Context) : BuilderState :=
  { context := ctx, instructions := [], vars := [], scopes := [], blockVars := [] }

/-- Modelled from the spec (§4.2): walk the instructions in order through
`builderAppend`; an unterminated Begin at the end is an error. -/
def validateFrom (st : BuilderState) : List Instruction →
    Except ProgramValidationError BuilderState
  | [] => if st.scopes.isEmpty then .ok st else .error .UnterminatedBlock
  | i :: rest =>
    match builderAppend st i with
    | .error e => .error e
    | .ok (_, st1) => validateFrom st1 rest

/-- Modelled from the spec (§4.2): whole-program validation. -/
def validateProgram (p : Program) : Except ProgramValidationError Unit :=
  match validateFrom (initialState p.context) p.instructions with
  | .ok _ => .ok ()
  | .error e => .error e

/-- A deterministic stream of raw draws standing in for the seeded RNG the
generators consume; claims that force RNG outcomes pick the stream. -/
def Rng : Type := List Nat

/-- Pop one raw draw (0 once the stream is exhausted). -/
def nextNat : Rng → Nat × Rng
  | [] => (0, [])
  | n :: rest => (n, rest)

/-- `rng.gen_bool(p)`: one draw decides the coin (the forced outcome is
encoded in the stream, the probability does not matter for the claims). -/
def genBool (r : Rng) : Bool × Rng :=
  ((nextNat r).1 % 2 = 1, (nextNat r).2)

/-- `rng.gen_range(lo..=hi)`: one draw reduced into the inclusive range. -/
def genRange (lo hi : Nat) (r : Rng) : Nat × Rng :=
  (lo + (nextNat r).1 % (hi + 1 - lo), (nextNat r).2)

/-- `Variable` arena index `i` holds an in-scope variable of kind `k`. -/
def isInScopeOfKind (st : BuilderState) (k : Variable) (i : Nat) : Bool :=
  match st.vars.get? i with
  | some kv => decide (kv.1 = k) && kv.2
  | none => false

/-- The in-scope arena indices of a given kind, in index order. -/
def inScopeOfKind (st : BuilderState) (k : Variable) : List Nat :=
  (List.range st.vars.length).filter (isInScopeOfKind st k)

/-- Modelled from the spec (§4.3): `get_random_variable` — uniform over the
in-scope variables of the requested kind, `None` when none exists. -/
def getRandomVariable (st : BuilderState) (r : Rng) (k : Variable) :
    Option (Nat × Rng) :=
  match inScopeOfKind st k with
  | [] => none
  | c => some (c.getD ((nextNat r).1 % c.length) 0, (nextNat r).2)

/-- Modelled from the spec (§4.3): `get_block_vars` — the recorded
`(ConstBlockTransactions index, ConstTx indices)` of a `Block` variable. -/
def getBlockVars (st : BuilderState) (b : Nat) : Option (Nat × List Nat) :=
  (st.blockVars.find? (fun e => e.1 = b)).map (fun e => e.2)

/-- Embedding of `enum GeneratorError` (`MissingVariables`, `InvalidContext`);
the extra `Panic` variant models a Rust panic from the generators' `.expect`
calls on `builder.append` (the sources treat those appends as infallible). -/
inductive GeneratorError where
  | MissingVariables
  | InvalidContext (ctx : Context)
  | Panic
deriving Repr

/-- One Fisher-Yates style extraction step stream: repeatedly draw an index
into the remaining list and move that element to the front; models
`SliceRandom::shuffle`. -/
def shuffleGo {α : Type} : Nat → List α → Rng → List α × Rng
  | _, [], r => ([], r)
  | 0, l, r => (l, r)
  | fuel + 1, x :: xs, r =>
    let i := (nextNat r).1 % (xs.length + 1)
    let s := shuffleGo fuel ((x :: xs).eraseIdx i) (nextNat r).2
    ((x :: xs).getD i x :: s.1, s.2)

/-- Embedding of `shuffled.shuffle(rng)`: a permutation of the input driven
by the draw stream. -/
def shuffle {α : Type} (l : List α) (r : Rng) : List α × Rng :=
  shuffleGo l.length l r

/-- Modelled from the spec (§4.3): `get_or_create_random_connection` —
return an existing in-scope `Connection`, or (when none exists and
`context.num_nodes > 0`) synthesize a `LoadNode`/`LoadConnectionType`/
`AddConnection` fragment and return its `Connection`; the sources for this
method are not available, and the claims only exercise the existing-variable
path. -/
def getOrCreateRandomConnection (st : BuilderState) (r : Rng) :
    Except GeneratorError (Nat × BuilderState × Rng) :=
  match getRandomVariable st r .Connection with
  | some (v, r1) => .ok (v, st, r1)
  | none =>
    if st.context.num_nodes = 0 then .error .Panic
    else
      let nn := (genRange 0 (st.context.num_nodes - 1) r).1
      let r1 := (genRange 0 (st.context.num_nodes - 1) r).2
      match builderAppend st { inputs := [], operation := .LoadNode nn } with
      | .error _ => .error .Panic
      | .ok (outs1, st1) =>
        match outs1.getLast? with
        | none => .error .Panic
        | some nodeVar =>
          match builderAppend st1
              { inputs := [], operation := .LoadConnectionType "inbound".toList } with
          | .error _ => .error .Panic
          | .ok (outs2, st2) =>
            match outs2.getLast? with
            | none => .error .Panic
            | some ctVar =>
              match builderAppend st2
                  { inputs := [nodeVar, ctVar], operation := .AddConnection } with
              | .error _ => .error .Panic
              | .ok (outs3, st3) =>
                match outs3.getLast? with
                | none => .error .Panic
                | some connVar => .ok (connVar, st3, r1)

/-- One loop iteration of `AddConnectionGenerator::generate`
(`add_connection.rs:19-60`): pick or load a `Node`, load a random
`ConnectionType`, append `AddConnection`. -/
def addConnectionOnce (st : BuilderState) (r : Rng) :
    Except GeneratorError (BuilderState × Rng) :=
  let nodeRes : Except GeneratorError (Nat × BuilderState × Rng) :=
    match getRandomVariable st r .Node with
    | some (v, r1) => .ok (v, st, r1)
    | none =>
      if st.context.num_nodes = 0 then .error (.InvalidContext st.context)
      else
        let nn := (genRange 0 (st.context.num_nodes - 1) r).1
        let r1 := (genRange 0 (st.context.num_nodes - 1) r).2
        match builderAppend st { inputs := [], operation := .LoadNode nn } with
        | .error _ => .error .Panic
        | .ok (outs, st1) =>
          match outs.getLast? with
          | none => .error .Panic
          | some v => .ok (v, st1, r1)
  match nodeRes with
  | .error e => .error e
  | .ok (nodeVar, st1, r1) =>
    let r2 := (genBool r1).2
    let ctype := if (genBool r1).1 then "inbound".toList else "outbound".toList
    match builderAppend st1 { inputs := [], operation := .LoadConnectionType ctype } with
    | .error _ => .error .Panic
    | .ok (outs2, st2) =>
      match outs2.getLast? with
      | none => .error .Panic
      | some ctVar =>
        match builderAppend st2
            { inputs := [nodeVar, ctVar], operation := .AddConnection } with
        | .error _ => .error .Panic
        | .ok (_, st3) => .ok (st3, r2)

/-- The `for _ in 0..num_connections` loop of `AddConnectionGenerator`; an
error in an iteration aborts with the state as of that iteration's start. -/
def addConnectionLoop : Nat → BuilderState → Rng →
    (Except GeneratorError Unit) × BuilderState × Rng
  | 0, st, r => (.ok (), st, r)
  | k + 1, st, r =>
    match addConnectionOnce st r with
    | .error e => (.error e, st, r)
    | .ok (st1, r1) => addConnectionLoop k st1 r1

/-- Embedding of `AddConnectionGenerator::generate`
(`add_connection.rs:12-62`): `N = gen_range(1..=10)` with probability 0.7,
else `gen_range(10..=100)`; then `N` connection fragments. -/
def addConnectionGenerate (st : BuilderState) (r : Rng) :
    (Except GeneratorError Unit) × BuilderState × Rng :=
  let g := if (genBool r).1 then genRange 1 10 (genBool r).2
    else genRange 10 100 (genBool r).2
  addConnectionLoop g.1 st g.2

/-- The `AddPrefillTx` emission loop of `CompactBlockGenerator::generate`
(`compact_block.rs:65-72`): one `AddPrefillTx(list, tx_list, tx)` per chosen
tx index. -/
def addPrefillLoop (pf bt : Nat) : List Nat → BuilderState →
    Except GeneratorError BuilderState
  | [], st => .ok st
  | t :: rest, st =>
    match builderAppend st { inputs := [pf, bt, t], operation := .AddPrefillTx } with
    | .error _ => .error .Panic
    | .ok (_, st1) => addPrefillLoop pf bt rest st1

/-- The prefill subset selection of `CompactBlockGenerator::generate`
(`compact_block.rs:55-64`): when the block has transactions, draw
`num_prefill` uniformly from `0..=num_txs`, shuffle the tx indices and take
the first `num_prefill`. -/
def choosePrefill (txIdxs : List Nat) (r : Rng) : List Nat × Rng :=
  if txIdxs.length > 0 then
    ((shuffle txIdxs (genRange 0 txIdxs.length r).2).1.take
        (genRange 0 txIdxs.length r).1,
      (shuffle txIdxs (genRange 0 txIdxs.length r).2).2)
  else ([], r)

/-- Embedding of `CompactBlockGenerator::generate`
(`compact_block.rs:12-101`): pick an in-scope `Block` and its recorded
`(tx_list, tx_indices)`, get or create a connection, load a nonce, open the
prefill scope, append `AddPrefillTx` for a uniformly chosen number
(`0..=num_txs`) of shuffled tx indices, close the scope, build the compact
block and send it. Note the source emits `LoadNonce` before
`BeginPrefillTransactions`. -/
def compactBlockGenerate (st : BuilderState) (r : Rng) :
    (Except GeneratorError Unit) × BuilderState × Rng :=
  match getRandomVariable st r .Block with
  | none => (.error .MissingVariables, st, r)
  | some (block, r1) =>
    match getBlockVars st block with
    | none => (.error .MissingVariables, st, r1)
    | some (bt, txIdxs) =>
      match getOrCreateRandomConnection st r1 with
      | .error e => (.error e, st, r1)
      | .ok (conn, st1, r2) =>
        let nonce := (genRange 0 (U64MOD - 2) r2).1
        let r3 := (genRange 0 (U64MOD - 2) r2).2
        match builderAppend st1 { inputs := [], operation := .LoadNonce nonce } with
        | .error _ => (.error .Panic, st1, r3)
        | .ok (outsN, st2) =>
          match outsN.getLast? with
          | none => (.error .Panic, st2, r3)
          | some nonceVar =>
            match builderAppend st2
                { inputs := [], operation := .BeginPrefillTransactions } with
            | .error _ => (.error .Panic, st2, r3)
            | .ok (outsP, st3) =>
              match outsP.getLast? with
              | none => (.error .Panic, st3, r3)
              | some prefillVar =>
                let chosen := (choosePrefill txIdxs r3).1
                let r4 := (choosePrefill txIdxs r3).2
                match addPrefillLoop prefillVar bt chosen st3 with
                | .error e => (.error e, st3, r4)
                | .ok st4 =>
                  match builderAppend st4
                      { inputs := [prefillVar], operation := .EndPrefillTransactions } with
                  | .error _ => (.error .Panic, st4, r4)
                  | .ok (outsC, st5) =>
                    match outsC.getLast? with
                    | none => (.error .Panic, st5, r4)
                    | some constPrefill =>
                      match builderAppend st5
                          { inputs := [block, nonceVar, constPrefill],
                            operation := .BuildCompactBlockWithPrefill } with
                      | .error _ => (.error .Panic, st5, r4)
                      | .ok (outsB, st6) =>
                        match outsB.getLast? with
                        | none => (.error .Panic, st6, r4)
                        | some cmpct =>
                          match builderAppend st6
                              { inputs := [conn, cmpct],
                                operation := .SendCompactBlock } with
                          | .error _ => (.error .Panic, st6, r4)
                          | .ok (_, st7) => (.ok (), st7, r4)

/-- Recognizer for `LoadNode` instructions. -/
def isLoadNodeOp : Operation → Bool
  | .LoadNode _ => true
  | _ => false

/-- The concrete RNG stream forcing `gen_bool(0.7) = true` and
`gen_range(1..=10) = 3` for scenario S1, with zero draws afterwards. -/
def s1Rng : Rng := [1, 2, 0, 0, 0, 0, 0, 0]

/-- C8 counterexample: starting from the empty program with
`context.num_nodes = 1` and an RNG forcing `gen_bool(0.7) = true` and
`gen_range(1..=10) = 3`, the generator succeeds but appends only 7
instructions containing a single `LoadNode` — not the claimed three
`LoadNode`/`LoadConnectionType`/`AddConnection` triples (nine instructions):
after the first connection a `Node` variable is in scope, so the remaining
iterations reuse it instead of loading a new one. -/
theorem C8_add_connection_counterexample :
    (addConnectionGenerate (initialState { num_nodes := 1 }) s1Rng).1 = .ok () ∧
    (addConnectionGenerate (initialState { num_nodes := 1 }) s1Rng).2.1.instructions.length
      = 7 ∧
    ((addConnectionGenerate (initialState { num_nodes := 1 }) s1Rng).2.1.instructions.countP
      (fun i => isLoadNodeOp i.operation)) = 1 := by
  refine ⟨rfl, rfl, rfl⟩

lemma addConnectionLoop_invalid_context (st : BuilderState) (r : Rng) (k : Nat)
    (h0 : st.context.num_nodes = 0) (hnode : inScopeOfKind st .Node = []) :
    addConnectionLoop (k + 1) st r = (.error (.InvalidContext st.context), st, r) := by
  simp only [addConnectionLoop, addConnectionOnce, getRandomVariable, hnode, h0]
  rfl

/-- C8 (amended): with the S1 forced RNG from the empty program with
`num_nodes = 1`, the generator succeeds, the program consists of one
`LoadNode` followed by three `LoadConnectionType`/`AddConnection` pairs
(seven instructions, the second and third connection reusing the first
`LoadNode`'s variable), the program validates, and exactly three in-scope
`Connection` variables exist; and for any builder whose context has
`num_nodes = 0` and no in-scope `Node` variable, the generator fails with
`InvalidContext` and appends nothing. -/
theorem C8_add_connection_behavior :
    ((addConnectionGenerate (initialState { num_nodes := 1 }) s1Rng).1 = .ok () ∧
      (addConnectionGenerate (initialState { num_nodes := 1 }) s1Rng).2.1.instructions =
        [ { inputs := [], operation := .LoadNode 0 }
        , { inputs := [], operation := .LoadConnectionType "outbound".toList }
        , { inputs := [0, 1], operation := .AddConnection }
        , { inputs := [], operation := .LoadConnectionType "outbound".toList }
        , { inputs := [0, 3], operation := .AddConnection }
        , { inputs := [], operation := .LoadConnectionType "outbound".toList }
        , { inputs := [0, 5], operation := .AddConnection } ] ∧
      validateProgram
        { context := { num_nodes := 1 }
          instructions :=
            (addConnectionGenerate (initialState { num_nodes := 1 }) s1Rng).2.1.instructions }
        = .ok () ∧
      inScopeOfKind (addConnectionGenerate (initialState { num_nodes := 1 }) s1Rng).2.1
        .Connection = [2, 4, 6]) ∧
    (∀ (st : BuilderState) (r : Rng), st.context.num_nodes = 0 →
      inScopeOfKind st .Node = [] →
      (addConnectionGenerate st r).1 = .error (.InvalidContext st.context) ∧
      (addConnectionGenerate st r).2.1 = st) := by
  refine ⟨⟨rfl, rfl, rfl, rfl⟩, ?_⟩
  intro st r h0 hnode
  unfold addConnectionGenerate
  have hpos : 1 ≤ (if (genBool r).1 then genRange 1 10 (genBool r).2
      else genRange 10 100 (genBool r).2).1 := by
    split <;> (simp only [genRange]; omega)
  obtain ⟨k, hk⟩ : ∃ k, (if (genBool r).1 then genRange 1 10 (genBool r).2
      else genRange 10 100 (genBool r).2).1 = k + 1 :=
    ⟨(if (genBool r).1 then genRange 1 10 (genBool r).2
      else genRange 10 100 (genBool r).2).1 - 1, by omega⟩
  dsimp only
  rw [hk, addConnectionLoop_invalid_context st _ k h0 hnode]
  exact ⟨rfl, rfl⟩

/-- Witness for C8: the failure part of the amended theorem applied to the
empty builder over a zero-node context. -/
theorem C8_add_connection_behavior_witness :
    (addConnectionGenerate (initialState { num_nodes := 0 }) []).1
      = .error (.InvalidContext { num_nodes := 0 }) :=
  (C8_add_connection_behavior.2 (initialState { num_nodes := 0 }) [] rfl rfl).1

/-- The scenario S6 base program: one `Connection`, five transactions built
through the tx scope pairs, a `BeginBlockTransactions` scope collecting all
five via `AddTx`, and a `BuildBlock` producing the `Block` variable (index
39) whose transaction list (index 34) holds the five `ConstTx` variables
(indices 8, 14, 20, 26, 32). -/
def s6Instructions : List Instruction :=
      [ { inputs := [], operation := .LoadConnection 0 }
      , { inputs := [], operation := .LoadTxVersion 2 }
      , { inputs := [], operation := .LoadLockTime 0 }
      , { inputs := [1, 2], operation := .BeginBuildTx }
      , { inputs := [], operation := .BeginBuildTxInputs }
      , { inputs := [4], operation := .EndBuildTxInputs }
      , { inputs := [5], operation := .BeginBuildTxOutputs }
      , { inputs := [6], operation := .EndBuildTxOutputs }
      , { inputs := [3, 5, 7], operation := .EndBuildTx }
      , { inputs := [1, 2], operation := .BeginBuildTx }
      , { inputs := [], operation := .BeginBuildTxInputs }
      , { inputs := [10], operation := .EndBuildTxInputs }
      , { inputs := [11], operation := .BeginBuildTxOutputs }
      , { inputs := [12], operation := .EndBuildTxOutputs }
      , { inputs := [9, 11, 13], operation := .EndBuildTx }
      , { inputs := [1, 2], operation := .BeginBuildTx }
      , { inputs := [], operation := .BeginBuildTxInputs }
      , { inputs := [16], operation := .EndBuildTxInputs }
      , { inputs := [17], operation := .BeginBuildTxOutputs }
      , { inputs := [18], operation := .EndBuildTxOutputs }
      , { inputs := [15, 17, 19], operation := .EndBuildTx }
      , { inputs := [1, 2], operation := .BeginBuildTx }
      , { inputs := [], operation := .BeginBuildTxInputs }
      , { inputs := [22], operation := .EndBuildTxInputs }
      , { inputs := [23], operation := .BeginBuildTxOutputs }
      , { inputs := [24], operation := .EndBuildTxOutputs }
      , { inputs := [21, 23, 25], operation := .EndBuildTx }
      , { inputs := [1, 2], operation := .BeginBuildTx }
      , { inputs := [], operation := .BeginBuildTxInputs }
      , { inputs := [28], operation := .EndBuildTxInputs }
      , { inputs := [29], operation := .BeginBuildTxOutputs }
      , { inputs := [30], operation := .EndBuildTxOutputs }
      , { inputs := [27, 29, 31], operation := .EndBuildTx }
      , { inputs := [], operation := .BeginBlockTransactions }
      , { inputs := [33, 8], operation := .AddTx }
      , { inputs := [33, 14], operation := .AddTx }
      , { inputs := [33, 20], operation := .AddTx }
      , { inputs := [33, 26], operation := .AddTx }
      , { inputs := [33, 32], operation := .AddTx }
      , { inputs := [33], operation := .EndBlockTransactions }
      , { inputs := [], operation := .LoadHeader [] [] 0 0 0 0 0 }
      , { inputs := [], operation := .LoadTime 0 }
      , { inputs := [], operation := .LoadBlockVersion 4 }
      , { inputs := [35, 36, 37, 34], operation := .BuildBlock } ]

/-- The builder state after the S6 base program, with the `Block` bookkeeping
entry the builder maintains for `BuildBlock` (the spec's §4.3 map). -/
def s6StateBase : BuilderState :=
  match validateFrom (initialState { num_nodes := 1 }) s6Instructions with
  | .ok st => st
  | .error _ => initialState { num_nodes := 1 }

/-- The S6 builder state: base state plus the recorded block variables. -/
def s6State : BuilderState :=
  { s6StateBase with blockVars := [(39, 34, [8, 14, 20, 26, 32])] }

/-- The S6 RNG stream: block choice, connection choice, nonce draw,
`num_prefill = 5`, and five shuffle draws. -/
def s6Rng : Rng := [0, 0, 0, 5, 0, 0, 0, 0, 0]

lemma markOutFrom_length (idxs : List Nat) :
    ∀ (l : List (Variable × Bool)) (i0 : Nat), (markOutFrom i0 idxs l).length = l.length := by
  intro l
  induction l with
  | nil => intro i0; rfl
  | cons kv rest ih =>
    intro i0
    simp only [markOutFrom, List.length_cons, ih]

lemma markOutFrom_get?_ne (idxs : List Nat) :
    ∀ (l : List (Variable × Bool)) (i0 j : Nat), (i0 + j) ∉ idxs →
      (markOutFrom i0 idxs l).get? j = l.get? j := by
  intro l
  induction l with
  | nil => intro i0 j _; rfl
  | cons kv rest ih =>
    intro i0 j hj
    cases j with
    | zero =>
      simp only [markOutFrom, List.get?]
      rw [if_neg (by simpa using hj)]
    | succ j =>
      simp only [markOutFrom, List.get?]
      have := ih (i0 + 1) j (by
        intro hin
        exact hj (by simpa [Nat.add_assoc, Nat.add_comm 1 j] using hin))
      exact this

lemma get?_append_left {α : Type} (l1 l2 : List α) (i : Nat) (h : i < l1.length) :
    (l1 ++ l2).get? i = l1.get? i := by
  rw [List.get?_append h]

lemma get?_concat_length {α : Type} (l : List α) (a : α) :
    (l ++ [a]).get? l.length = some a := by
  rw [List.get?_append_right (le_refl _)]
  simp

lemma get?_lt_length {α : Type} {l : List α} {i : Nat} {a : α}
    (h : l.get? i = some a) : i < l.length :=
  List.get?_eq_some.mp h |>.1

lemma mem_inScopeOfKind (st : BuilderState) (k : Variable) (i : Nat) :
    i ∈ inScopeOfKind st k ↔ st.vars.get? i = some (k, true) := by
  unfold inScopeOfKind isInScopeOfKind
  rw [List.mem_filter, List.mem_range]
  constructor
  · rintro ⟨hlt, hb⟩
    cases hv : st.vars.get? i with
    | none => rw [hv] at hb; simp at hb
    | some kv =>
      rw [hv] at hb
      simp only [Bool.and_eq_true, decide_eq_true_eq] at hb
      cases kv with
      | mk k2 b2 =>
        obtain ⟨hk, hbb⟩ := hb
        subst hk
        simp only at hbb
        rw [hbb]
  · intro hv
    refine ⟨get?_lt_length hv, ?_⟩
    rw [hv]
    simp

lemma getD_mem_of_ne_nil {l : List Nat} (n : Nat) (h : l ≠ []) :
    l.getD (n % l.length) 0 ∈ l := by
  have hlen : 0 < l.length := List.length_pos.mpr h
  have hlt : n % l.length < l.length := Nat.mod_lt _ hlen
  rw [List.getD_eq_getElem l 0 hlt]
  exact List.getElem_mem hlt

lemma getRandomVariable_of_ne_nil (st : BuilderState) (r : Rng) (k : Variable)
    (h : inScopeOfKind st k ≠ []) :
    ∃ v, getRandomVariable st r k = some (v, (nextNat r).2) ∧
      st.vars.get? v = some (k, true) := by
  have hmem := getD_mem_of_ne_nil (l := inScopeOfKind st k) (nextNat r).1 h
  unfold getRandomVariable
  cases hc : inScopeOfKind st k with
  | nil => exact absurd hc h
  | cons x xs =>
    refine ⟨(x :: xs).getD ((nextNat r).1 % (x :: xs).length) 0, rfl, ?_⟩
    rw [← mem_inScopeOfKind, hc]
    rw [hc] at hmem
    exact hmem

lemma builderAppend_LoadNonce (st : BuilderState) (n : Nat) :
    builderAppend st { inputs := [], operation := .LoadNonce n } =
      .ok ([st.vars.length],
        { st with
          instructions := st.instructions ++ [{ inputs := [], operation := .LoadNonce n }]
          vars := st.vars ++ [(.Nonce, true)] }) := by
  simp [builderAppend, inputsOk, inputsOkGo, Operation.get_input_variables,
    Operation.is_block_end, Operation.is_block_begin, Operation.get_output_variables,
    List.range_succ]

lemma builderAppend_BeginPrefill (st : BuilderState) :
    builderAppend st { inputs := [], operation := .BeginPrefillTransactions } =
      .ok ([st.vars.length],
        { st with
          instructions := st.instructions
            ++ [{ inputs := [], operation := .BeginPrefillTransactions }]
          vars := st.vars ++ [(.MutPrefillTransactions, true)]
          scopes := ScopeFrame.mk .BeginPrefillTransactions [st.vars.length]
            :: st.scopes }) := by
  simp [builderAppend, inputsOk, inputsOkGo, Operation.get_input_variables,
    Operation.is_block_end, Operation.is_block_begin, Operation.get_output_variables,
    Operation.get_inner_output_variables, List.range_succ]

lemma builderAppend_AddPrefillTx (st : BuilderState) (pf bt t : Nat)
    (hpf : st.vars.get? pf = some (.MutPrefillTransactions, true))
    (hbt : st.vars.get? bt = some (.ConstBlockTransactions, true))
    (ht : st.vars.get? t = some (.ConstTx, true)) :
    builderAppend st { inputs := [pf, bt, t], operation := .AddPrefillTx } =
      .ok ([],
        { st with
          instructions := st.instructions
            ++ [{ inputs := [pf, bt, t], operation := .AddPrefillTx }] }) := by
  simp only [builderAppend, inputsOk, Operation.get_input_variables, List.length_cons,
    List.length_nil, reduceIte, inputsOkGo, hpf, hbt, ht]
  simp [Operation.is_block_end, Operation.is_block_begin, Operation.get_output_variables]

lemma builderAppend_EndPrefill (st : BuilderState) (pf : Nat) (inner : List Nat)
    (rest : List ScopeFrame)
    (hpf : st.vars.get? pf = some (.MutPrefillTransactions, true))
    (hscopes : st.scopes = ScopeFrame.mk .BeginPrefillTransactions inner :: rest) :
    builderAppend st { inputs := [pf], operation := .EndPrefillTransactions } =
      .ok ([st.vars.length],
        { st with
          instructions := st.instructions
            ++ [{ inputs := [pf], operation := .EndPrefillTransactions }]
          vars := markOut st.vars inner ++ [(.ConstPrefillTransactions, true)]
          scopes := rest }) := by
  simp only [builderAppend, inputsOk, Operation.get_input_variables, List.length_cons,
    List.length_nil, reduceIte, inputsOkGo, hpf]
  simp only [Operation.is_block_end, hscopes, reduceIte,
    Operation.is_matching_block_begin, Operation.get_output_variables]
  simp [markOut, markOutFrom_length, List.range_succ]

lemma builderAppend_BuildCompact (st : BuilderState) (b nv cp : Nat)
    (hb : st.vars.get? b = some (.Block, true))
    (hnv : st.vars.get? nv = some (.Nonce, true))
    (hcp : st.vars.get? cp = some (.ConstPrefillTransactions, true)) :
    builderAppend st { inputs := [b, nv, cp], operation := .BuildCompactBlockWithPrefill } =
      .ok ([st.vars.length],
        { st with
          instructions := st.instructions
            ++ [{ inputs := [b, nv, cp], operation := .BuildCompactBlockWithPrefill }]
          vars := st.vars ++ [(.CompactBlock, true)] }) := by
  simp only [builderAppend, inputsOk, Operation.get_input_variables, List.length_cons,
    List.length_nil, reduceIte, inputsOkGo, hb, hnv, hcp]
  simp [Operation.is_block_end, Operation.is_block_begin, Operation.get_output_variables,
    List.range_succ]

lemma builderAppend_SendCompact (st : BuilderState) (conn cm : Nat)
    (hconn : st.vars.get? conn = some (.Connection, true))
    (hcm : st.vars.get? cm = some (.CompactBlock, true)) :
    builderAppend st { inputs := [conn, cm], operation := .SendCompactBlock } =
      .ok ([],
        { st with
          instructions := st.instructions
            ++ [{ inputs := [conn, cm], operation := .SendCompactBlock }] }) := by
  simp only [builderAppend, inputsOk, Operation.get_input_variables, List.length_cons,
    List.length_nil, reduceIte, inputsOkGo, hconn, hcm]
  simp [Operation.is_block_end, Operation.is_block_begin, Operation.get_output_variables]

lemma getD_cons_eraseIdx_perm {α : Type} (d : α) :
    ∀ (l : List α) (i : Nat), i < l.length →
      List.Perm (l.getD i d :: l.eraseIdx i) l := by
  intro l
  induction l with
  | nil => intro i hi; simp at hi
  | cons x xs ih =>
    intro i hi
    cases i with
    | zero => simp
    | succ i =>
      have hi2 : i < xs.length := by simpa using hi
      have h1 : (x :: xs).getD (i + 1) d = xs.getD i d := by simp
      have h2 : (x :: xs).eraseIdx (i + 1) = x :: xs.eraseIdx i := by simp [List.eraseIdx]
      rw [h1, h2]
      exact (List.Perm.swap x (xs.getD i d) (xs.eraseIdx i)).trans
        (List.Perm.cons x (ih i hi2))

lemma shuffleGo_perm {α : Type} :
    ∀ (fuel : Nat) (l : List α) (r : Rng), l.length ≤ fuel →
      List.Perm (shuffleGo fuel l r).1 l := by
  intro fuel
  induction fuel with
  | zero =>
    intro l r hl
    have : l = [] := List.length_eq_zero.mp (Nat.le_zero.mp hl)
    subst this
    simp [shuffleGo]
  | succ fuel ih =>
    intro l r hl
    cases l with
    | nil => simp [shuffleGo]
    | cons x xs =>
      simp only [shuffleGo]
      have hi : (nextNat r).1 % (xs.length + 1) < (x :: xs).length := by
        simp only [List.length_cons]
        exact Nat.mod_lt _ (by omega)
      have hlen := List.length_eraseIdx_add_one hi
      have hrest : ((x :: xs).eraseIdx ((nextNat r).1 % (xs.length + 1))).length ≤ fuel := by
        simp only [List.length_cons] at hl hlen
        omega
      have hperm := ih ((x :: xs).eraseIdx ((nextNat r).1 % (xs.length + 1)))
        (nextNat r).2 hrest
      exact (List.Perm.cons _ hperm).trans (getD_cons_eraseIdx_perm x (x :: xs) _ hi)

lemma shuffle_perm {α : Type} (l : List α) (r : Rng) :
    List.Perm (shuffle l r).1 l :=
  shuffleGo_perm l.length l r (le_refl _)

lemma choosePrefill_spec (txs : List Nat) (r : Rng) (hnd : txs.Nodup) :
    (∀ t ∈ (choosePrefill txs r).1, t ∈ txs) ∧ (choosePrefill txs r).1.Nodup ∧
      (choosePrefill txs r).1.length ≤ txs.length := by
  unfold choosePrefill
  split <;> dsimp only
  · have hperm := shuffle_perm txs (genRange 0 txs.length r).2
    have hnd2 : (shuffle txs (genRange 0 txs.length r).2).1.Nodup :=
      (hperm.nodup_iff).mpr hnd
    refine ⟨?_, ?_, ?_⟩
    · intro t ht
      exact hperm.mem_iff.mp (List.mem_of_mem_take ht)
    · exact hnd2.sublist (List.take_sublist _ _)
    · have h1 := List.length_take (genRange 0 txs.length r).1
        (shuffle txs (genRange 0 txs.length r).2).1
      have h2 := hperm.length_eq
      omega
  · simp

lemma addPrefillLoop_ok (pf bt : Nat) :
    ∀ (chosen : List Nat) (st : BuilderState),
      st.vars.get? pf = some (.MutPrefillTransactions, true) →
      st.vars.get? bt = some (.ConstBlockTransactions, true) →
      (∀ t ∈ chosen, st.vars.get? t = some (.ConstTx, true)) →
      addPrefillLoop pf bt chosen st = .ok
        { st with instructions := st.instructions
            ++ chosen.map (fun t => { inputs := [pf, bt, t], operation := .AddPrefillTx }) } := by
  intro chosen
  induction chosen with
  | nil =>
    intro st _ _ _
    simp [addPrefillLoop]
  | cons t rest ih =>
    intro st hpf hbt hts
    simp only [addPrefillLoop]
    rw [builderAppend_AddPrefillTx st pf bt t hpf hbt (hts t (by simp))]
    have hnext := ih { st with instructions := st.instructions
        ++ [{ inputs := [pf, bt, t], operation := .AddPrefillTx }] }
      hpf hbt (fun u hu => hts u (by simp [hu]))
    simp only [hnext]
    simp

lemma getOrCreate_of_connection (st : BuilderState) (r : Rng)
    (h : inScopeOfKind st .Connection ≠ []) :
    ∃ conn, getOrCreateRandomConnection st r = .ok (conn, st, (nextNat r).2) ∧
      st.vars.get? conn = some (.Connection, true) := by
  obtain ⟨v, hv, hvk⟩ := getRandomVariable_of_ne_nil st r .Connection h
  refine ⟨v, ?_, hvk⟩
  unfold getOrCreateRandomConnection
  rw [hv]

/-- C7 counterexample: in the concrete S6 run (one `Block` with five
transactions, seeded RNG yielding `num_prefill = 5`) the generator succeeds,
but the appended sequence begins with `LoadNonce` and then
`BeginPrefillTransactions`, and the instruction following
`EndPrefillTransactions` is `BuildCompactBlockWithPrefill`, not `LoadNonce` —
contradicting the claim's order `BeginPrefillTransactions, AddPrefillTx*,
EndPrefillTransactions, LoadNonce, ...`. -/
theorem C7_order_counterexample :
    (compactBlockGenerate s6State s6Rng).1 = .ok () ∧
    (compactBlockGenerate s6State s6Rng).2.1.instructions.drop 44 =
      [ { inputs := [], operation := .LoadNonce 0 }
      , { inputs := [], operation := .BeginPrefillTransactions }
      , { inputs := [41, 34, 8], operation := .AddPrefillTx }
      , { inputs := [41, 34, 14], operation := .AddPrefillTx }
      , { inputs := [41, 34, 20], operation := .AddPrefillTx }
      , { inputs := [41, 34, 26], operation := .AddPrefillTx }
      , { inputs := [41, 34, 32], operation := .AddPrefillTx }
      , { inputs := [41], operation := .EndPrefillTransactions }
      , { inputs := [39, 40, 42], operation := .BuildCompactBlockWithPrefill }
      , { inputs := [0, 43], operation := .SendCompactBlock } ] ∧
    (∀ n : Nat, ((compactBlockGenerate s6State s6Rng).2.1.instructions.getD 52
        { inputs := [], operation := .IncrementalSnapshot }).operation
      ≠ .LoadNonce n) := by
  refine ⟨rfl, rfl, ?_⟩
  intro n h
  exact Operation.noConfusion h

/-- C7 (amended): for every builder state with at least one in-scope `Block`
variable, well-formed recorded block vars for each (a recorded
`ConstBlockTransactions` list and distinct in-scope `ConstTx` indices), and
an in-scope `Connection`, `CompactBlockGenerator` succeeds and appends, in
this order: a `LoadNonce`, then a `BeginPrefillTransactions`, then one
`AddPrefillTx` per chosen transaction (each referencing a distinct tx var
index belonging to that block, at most `num_txs` many), then an
`EndPrefillTransactions`, then a `BuildCompactBlockWithPrefill(block, nonce,
prefill)`, and finally a `SendCompactBlock(connection, cmpct)`; when no
in-scope `Block` exists it fails with `MissingVariables` and appends
nothing. In scenario S6 the generator succeeds and the resulting program
validates. (The source emits `LoadNonce` before the prefill scope, not after
`EndPrefillTransactions` as the claim stated.) -/
theorem C7_compact_block_behavior :
    (∀ (st : BuilderState) (r : Rng),
      inScopeOfKind st .Block ≠ [] →
      (∀ b ∈ inScopeOfKind st .Block, ∃ bt txs, getBlockVars st b = some (bt, txs) ∧
        st.vars.get? bt = some (.ConstBlockTransactions, true) ∧
        (∀ t ∈ txs, st.vars.get? t = some (.ConstTx, true)) ∧ txs.Nodup) →
      inScopeOfKind st .Connection ≠ [] →
      ∃ (b bt conn nonce : Nat) (txs chosen : List Nat),
        getBlockVars st b = some (bt, txs) ∧
        chosen.Nodup ∧ (∀ t ∈ chosen, t ∈ txs) ∧ chosen.length ≤ txs.length ∧
        (compactBlockGenerate st r).1 = .ok () ∧
        (compactBlockGenerate st r).2.1.instructions =
          st.instructions
            ++ { inputs := [], operation := .LoadNonce nonce }
            :: { inputs := [], operation := .BeginPrefillTransactions }
            :: (chosen.map (fun t =>
                  (⟨[st.vars.length + 1, bt, t], .AddPrefillTx⟩ : Instruction))
              ++ [ { inputs := [st.vars.length + 1], operation := .EndPrefillTransactions }
                 , (⟨[b, st.vars.length, st.vars.length + 2],
                     .BuildCompactBlockWithPrefill⟩ : Instruction)
                 , (⟨[conn, st.vars.length + 3], .SendCompactBlock⟩ : Instruction) ])) ∧
    (∀ (st : BuilderState) (r : Rng), inScopeOfKind st .Block = [] →
      (compactBlockGenerate st r).1 = .error .MissingVariables ∧
      (compactBlockGenerate st r).2.1 = st) ∧
    ((compactBlockGenerate s6State s6Rng).1 = .ok () ∧
      validateProgram
        { context := { num_nodes := 1 }
          instructions := (compactBlockGenerate s6State s6Rng).2.1.instructions }
        = .ok ()) := by
  refine ⟨?_, ?_, rfl, rfl⟩
  · intro st r hBlocks hBV hConn
    obtain ⟨b, hbrand, hbkind⟩ := getRandomVariable_of_ne_nil st r .Block hBlocks
    obtain ⟨bt, txs, hgbv, hbtk, htxk, hnodup⟩ :=
      hBV b ((mem_inScopeOfKind st .Block b).mpr hbkind)
    obtain ⟨conn, hconnEq, hconnk⟩ := getOrCreate_of_connection st ((nextNat r).2) hConn
    have hbL : b < st.vars.length := get?_lt_length hbkind
    have hbtL : bt < st.vars.length := get?_lt_length hbtk
    have hconnL : conn < st.vars.length := get?_lt_length hconnk
    obtain ⟨hcmem, hcnd, hclen⟩ := choosePrefill_spec txs
      (genRange 0 (U64MOD - 2) (nextNat ((nextNat r).2)).2).2 hnodup
    refine ⟨b, bt, conn,
      (genRange 0 (U64MOD - 2) (nextNat ((nextNat r).2)).2).1, txs,
      (choosePrefill txs (genRange 0 (U64MOD - 2) (nextNat ((nextNat r).2)).2).2).1,
      hgbv, hcnd, hcmem, hclen, ?_⟩
    -- compute the run
    unfold compactBlockGenerate
    rw [hbrand]
    dsimp only
    rw [hgbv]
    dsimp only
    rw [hconnEq]
    dsimp only
    rw [builderAppend_LoadNonce]
    simp only [List.getLast?_singleton]
    rw [builderAppend_BeginPrefill]
    simp only [List.getLast?_singleton]
    rw [addPrefillLoop_ok _ _ _ _ (get?_concat_length _ _)
      (by
        rw [get?_append_left _ _ bt (by simp; omega), get?_append_left _ _ bt hbtL]
        exact hbtk)
      (by
        intro t ht
        have htk := htxk t (hcmem t ht)
        have htL : t < st.vars.length := get?_lt_length htk
        rw [get?_append_left _ _ t (by simp; omega), get?_append_left _ _ t htL]
        exact htk)]
    dsimp only
    rw [builderAppend_EndPrefill _ _ _ _ (get?_concat_length _ _) rfl]
    simp only [List.getLast?_singleton]
    rw [builderAppend_BuildCompact _ _ _ _
      (by
        rw [get?_append_left _ _ b
          (by rw [markOut, markOutFrom_length]; simp only [List.length_append,
            List.length_cons, List.length_nil]; omega)]
        rw [markOut, markOutFrom_get?_ne _ _ _ b
          (by simp only [Nat.zero_add, List.mem_singleton, List.length_append,
            List.length_cons, List.length_nil]; omega)]
        rw [get?_append_left _ _ b
          (by simp only [List.length_append, List.length_cons, List.length_nil]; omega)]
        rw [get?_append_left _ _ b hbL]
        exact hbkind)
      (by
        rw [get?_append_left _ _ st.vars.length
          (by rw [markOut, markOutFrom_length]; simp only [List.length_append,
            List.length_cons, List.length_nil]; omega)]
        rw [markOut, markOutFrom_get?_ne _ _ _ st.vars.length
          (by simp only [Nat.zero_add, List.mem_singleton, List.length_append,
            List.length_cons, List.length_nil]; omega)]
        rw [get?_append_left _ _ st.vars.length
          (by simp only [List.length_append, List.length_cons, List.length_nil]; omega)]
        exact get?_concat_length _ _)
      (by
        have hlen2 : (markOut (st.vars ++ [(Variable.Nonce, true)]
            ++ [(Variable.MutPrefillTransactions, true)])
            [(st.vars ++ [(Variable.Nonce, true)]).length]).length
            = (st.vars ++ [(Variable.Nonce, true)]
              ++ [(Variable.MutPrefillTransactions, true)]).length := by
          rw [markOut, markOutFrom_length]
        rw [← hlen2]
        exact get?_concat_length _ _)]
    simp only [List.getLast?_singleton]
    rw [builderAppend_SendCompact _ _ _
      (by
        rw [get?_append_left _ _ conn
          (by rw [List.length_append, markOut, markOutFrom_length]
              simp only [List.length_append, List.length_cons, List.length_nil]
              omega)]
        rw [get?_append_left _ _ conn
          (by rw [markOut, markOutFrom_length]
              simp only [List.length_append, List.length_cons, List.length_nil]
              omega)]
        rw [markOut, markOutFrom_get?_ne _ _ _ conn
          (by simp only [Nat.zero_add, List.mem_singleton, List.length_append,
            List.length_cons, List.length_nil]; omega)]
        rw [get?_append_left _ _ conn
          (by simp only [List.length_append, List.length_cons, List.length_nil]; omega)]
        rw [get?_append_left _ _ conn hconnL]
        exact hconnk)
      (get?_concat_length _ _)]
    dsimp only
    simp [List.append_assoc, markOut, markOutFrom_length]
  · intro st r hb
    have hrand : getRandomVariable st r .Block = none := by
      unfold getRandomVariable
      rw [hb]
    unfold compactBlockGenerate
    rw [hrand]
    exact ⟨rfl, rfl⟩

/-- Witness for C7: the amended theorem's general part applied to the
concrete S6 builder state and RNG. -/
theorem C7_compact_block_behavior_witness :
    ∃ (b bt conn nonce : Nat) (txs chosen : List Nat),
      getBlockVars s6State b = some (bt, txs) ∧
      chosen.Nodup ∧ (∀ t ∈ chosen, t ∈ txs) ∧ chosen.length ≤ txs.length ∧
      (compactBlockGenerate s6State s6Rng).1 = .ok () ∧
      (compactBlockGenerate s6State s6Rng).2.1.instructions =
        s6State.instructions
          ++ { inputs := [], operation := .LoadNonce nonce }
          :: { inputs := [], operation := .BeginPrefillTransactions }
          :: (chosen.map (fun t =>
                (⟨[s6State.vars.length + 1, bt, t], .AddPrefillTx⟩ : Instruction))
            ++ [ { inputs := [s6State.vars.length + 1],
                   operation := .EndPrefillTransactions }
               , (⟨[b, s6State.vars.length, s6State.vars.length + 2],
                   .BuildCompactBlockWithPrefill⟩ : Instruction)
               , (⟨[conn, s6State.vars.length + 3],
                   .SendCompactBlock⟩ : Instruction) ]) :=
  C7_compact_block_behavior.1 s6State s6Rng (by decide)
    (by
      intro b hb
      have h39 : inScopeOfKind s6State .Block = [39] := by decide
      rw [h39] at hb
      have hb39 : b = 39 := by simpa using hb
      subst hb39
      exact ⟨34, [8, 14, 20, 26, 32], by decide, by decide, by decide, by decide⟩)
    (by decide)

/-- UTF-8 encoding of one scalar value (the byte sequence `String::as_bytes`
produces for the char). -/
def utf8EncodeChar (c : Char) : List Nat :=
  let n := c.toNat
  if n < 128 then [n]
  else if n < 2048 then [192 + n / 64, 128 + n % 64]
  else if n < 65536 then [224 + n / 4096, 128 + n / 64 % 64, 128 + n % 64]
  else [240 + n / 262144, 128 + n / 4096 % 64, 128 + n / 64 % 64, 128 + n % 64]

/-- UTF-8 encoding of a string (Rust `str::as_bytes`). -/
def utf8Encode (s : List Char) : List Nat :=
  s.flatMap utf8EncodeChar

/-- One step of UTF-8 decoding: the scalar value encoded at the front of the
byte list and the remaining bytes (Rust `String::from_utf8`'s per-character
step); rejects truncated or malformed continuation bytes. -/
def utf8DecodeOne : List Nat → Option (Nat × List Nat)
  | [] => none
  | b :: rest =>
    if b < 128 then some (b, rest)
    else if b < 192 then none
    else if b < 224 then
      match rest with
      | b1 :: rest1 =>
        if 128 ≤ b1 ∧ b1 < 192 then some ((b - 192) * 64 + (b1 - 128), rest1) else none
      | [] => none
    else if b < 240 then
      match rest with
      | b1 :: b2 :: rest2 =>
        if (128 ≤ b1 ∧ b1 < 192) ∧ (128 ≤ b2 ∧ b2 < 192) then
          some ((b - 224) * 4096 + (b1 - 128) * 64 + (b2 - 128), rest2)
        else none
      | _ => none
    else
      match rest with
      | b1 :: b2 :: b3 :: rest3 =>
        if (128 ≤ b1 ∧ b1 < 192) ∧ (128 ≤ b2 ∧ b2 < 192) ∧ (128 ≤ b3 ∧ b3 < 192) then
          some ((b - 240) * 262144 + (b1 - 128) * 4096 + (b2 - 128) * 64 + (b3 - 128),
            rest3)
        else none
      | _ => none

/-- Fuel-driven UTF-8 decoding loop (the fuel is instantiated with the byte
count, which bounds the number of characters). -/
def utf8DecodeGo : Nat → List Nat → Option (List Char)
  | _, [] => some []
  | 0, _ :: _ => none
  | fuel + 1, b :: tail =>
    match utf8DecodeOne (b :: tail) with
    | none => none
    | some (n, rest) => (utf8DecodeGo fuel rest).map (fun cs => Char.ofNat n :: cs)

/-- UTF-8 decoding of a whole byte buffer (Rust `String::from_utf8`). -/
def utf8Decode (bs : List Nat) : Option (List Char) :=
  utf8DecodeGo bs.length bs

lemma char_toNat_lt (c : Char) : c.toNat < 1114112 := by
  have h := c.valid
  rcases h with h | h
  · have : c.val.toNat < 55296 := h
    simp only [Char.toNat]
    omega
  · exact h.2

lemma utf8DecodeOne_encodeChar (c : Char) (rest : List Nat) :
    utf8DecodeOne (utf8EncodeChar c ++ rest) = some (c.toNat, rest) := by
  have hlt := char_toNat_lt c
  unfold utf8EncodeChar
  by_cases h1 : c.toNat < 128
  · rw [if_pos h1]
    simp only [List.cons_append, List.nil_append, utf8DecodeOne, if_pos h1]
  · rw [if_neg h1]
    by_cases h2 : c.toNat < 2048
    · rw [if_pos h2]
      simp only [List.cons_append, List.nil_append, utf8DecodeOne]
      rw [if_neg (by omega), if_neg (by omega), if_pos (by omega)]
      simp only [if_pos (show 128 ≤ 128 + c.toNat % 64 ∧ 128 + c.toNat % 64 < 192 by
        constructor <;> omega)]
      have harith : (192 + c.toNat / 64 - 192) * 64 + (128 + c.toNat % 64 - 128)
          = c.toNat := by omega
      rw [harith]
    · rw [if_neg h2]
      by_cases h3 : c.toNat < 65536
      · rw [if_pos h3]
        simp only [List.cons_append, List.nil_append, utf8DecodeOne]
        rw [if_neg (by omega), if_neg (by omega), if_neg (by omega), if_pos (by omega)]
        simp only [if_pos (show (128 ≤ 128 + c.toNat / 64 % 64
            ∧ 128 + c.toNat / 64 % 64 < 192)
            ∧ 128 ≤ 128 + c.toNat % 64 ∧ 128 + c.toNat % 64 < 192 by
          refine ⟨⟨?_, ?_⟩, ?_, ?_⟩ <;> omega)]
        have harith : (224 + c.toNat / 4096 - 224) * 4096
            + (128 + c.toNat / 64 % 64 - 128) * 64 + (128 + c.toNat % 64 - 128)
            = c.toNat := by omega
        rw [harith]
      · rw [if_neg h3]
        simp only [List.cons_append, List.nil_append, utf8DecodeOne]
        rw [if_neg (by omega), if_neg (by omega), if_neg (by omega), if_neg (by omega)]
        simp only [if_pos (show (128 ≤ 128 + c.toNat / 4096 % 64
            ∧ 128 + c.toNat / 4096 % 64 < 192)
            ∧ (128 ≤ 128 + c.toNat / 64 % 64 ∧ 128 + c.toNat / 64 % 64 < 192)
            ∧ 128 ≤ 128 + c.toNat % 64 ∧ 128 + c.toNat % 64 < 192 by
          refine ⟨⟨?_, ?_⟩, ⟨?_, ?_⟩, ?_, ?_⟩ <;> omega)]
        have harith : (240 + c.toNat / 262144 - 240) * 262144
            + (128 + c.toNat / 4096 % 64 - 128) * 4096
            + (128 + c.toNat / 64 % 64 - 128) * 64 + (128 + c.toNat % 64 - 128)
            = c.toNat := by omega
        rw [harith]

lemma utf8EncodeChar_ne_nil (c : Char) : utf8EncodeChar c ≠ [] := by
  unfold utf8EncodeChar
  dsimp only
  split
  · simp
  · split
    · simp
    · split <;> simp

lemma utf8EncodeChar_length_pos (c : Char) : 1 ≤ (utf8EncodeChar c).length := by
  have := utf8EncodeChar_ne_nil c
  cases h : utf8EncodeChar c with
  | nil => exact absurd h this
  | cons b bs => simp

lemma utf8DecodeGo_encode (s : List Char) :
    ∀ fuel : Nat, (utf8Encode s).length ≤ fuel →
      utf8DecodeGo fuel (utf8Encode s) = some s := by
  induction s with
  | nil =>
    intro fuel _
    simp [utf8Encode]
    cases fuel <;> rfl
  | cons c cs ih =>
    intro fuel hfuel
    have henc : utf8Encode (c :: cs) = utf8EncodeChar c ++ utf8Encode cs := by
      simp [utf8Encode]
    obtain ⟨b, tail, hbt⟩ : ∃ b tail, utf8EncodeChar c = b :: tail := by
      cases h : utf8EncodeChar c with
      | nil => exact absurd h (utf8EncodeChar_ne_nil c)
      | cons b bs => exact ⟨b, bs, rfl⟩
    have hclen := utf8EncodeChar_length_pos c
    rw [henc] at hfuel ⊢
    have hfuel2 : (utf8Encode cs).length + 1 ≤ fuel := by
      rw [List.length_append] at hfuel
      omega
    obtain ⟨k, rfl⟩ : ∃ k, fuel = k + 1 := ⟨fuel - 1, by omega⟩
    rw [hbt, List.cons_append]
    rw [show utf8DecodeGo (k + 1) (b :: (tail ++ utf8Encode cs))
        = match utf8DecodeOne (b :: (tail ++ utf8Encode cs)) with
          | none => none
          | some (n, rest) => (utf8DecodeGo k rest).map (fun cs => Char.ofNat n :: cs)
      from rfl]
    rw [show b :: (tail ++ utf8Encode cs) = (b :: tail) ++ utf8Encode cs from rfl,
      ← hbt, utf8DecodeOne_encodeChar]
    dsimp only
    rw [ih k (by omega)]
    simp [Char.ofNat_toNat]

lemma utf8Decode_encode (s : List Char) : utf8Decode (utf8Encode s) = some s :=
  utf8DecodeGo_encode s (utf8Encode s).length (le_refl _)

lemma utf8EncodeChar_bytes_lt (c : Char) : ∀ b ∈ utf8EncodeChar c, b < 256 := by
  have hlt := char_toNat_lt c
  unfold utf8EncodeChar
  intro b hb
  by_cases h1 : c.toNat < 128
  · rw [if_pos h1] at hb
    simp only [List.mem_singleton] at hb
    omega
  · rw [if_neg h1] at hb
    by_cases h2 : c.toNat < 2048
    · rw [if_pos h2] at hb
      simp only [List.mem_cons, List.mem_singleton, List.not_mem_nil, or_false] at hb
      rcases hb with rfl | rfl <;> omega
    · rw [if_neg h2] at hb
      by_cases h3 : c.toNat < 65536
      · rw [if_pos h3] at hb
        simp only [List.mem_cons, List.mem_singleton, List.not_mem_nil, or_false] at hb
        rcases hb with rfl | rfl | rfl <;> omega
      · rw [if_neg h3] at hb
        simp only [List.mem_cons, List.mem_singleton, List.not_mem_nil, or_false] at hb
        rcases hb with rfl | rfl | rfl | rfl <;> omega

lemma utf8Encode_bytes_lt (s : List Char) : ∀ b ∈ utf8Encode s, b < 256 := by
  intro b hb
  simp only [utf8Encode, List.mem_flatMap] at hb
  obtain ⟨c, _, hbc⟩ := hb
  exact utf8EncodeChar_bytes_lt c b hbc

/-- The padding character of standard base64. -/
def eqPadChar : Char := '='

/-- The standard base64 alphabet, indexed by sextet value. -/
def b64Char (n : Nat) : Char :=
  if n < 26 then Char.ofNat (65 + n)
  else if n < 52 then Char.ofNat (97 + (n - 26))
  else if n < 62 then Char.ofNat (48 + (n - 52))
  else if n = 62 then '+'
  else '/'

/-- The inverse alphabet lookup of standard base64. -/
def b64Val (c : Char) : Option Nat :=
  let n := c.toNat
  if 65 ≤ n ∧ n ≤ 90 then some (n - 65)
  else if 97 ≤ n ∧ n ≤ 122 then some (26 + (n - 97))
  else if 48 ≤ n ∧ n ≤ 57 then some (52 + (n - 48))
  else if n = 43 then some 62
  else if n = 47 then some 63
  else none

/-- Standard base64 encoding with padding (`BASE64_STANDARD.encode`). -/
def b64Encode : List Nat → List Char
  | [] => []
  | [a] => [b64Char (a / 4), b64Char (a % 4 * 16), eqPadChar, eqPadChar]
  | [a, b] => [b64Char (a / 4), b64Char (a % 4 * 16 + b / 16), b64Char (b % 16 * 4),
      eqPadChar]
  | a :: b :: c :: rest =>
    b64Char (a / 4) :: b64Char (a % 4 * 16 + b / 16) :: b64Char (b % 16 * 4 + c / 64)
      :: b64Char (c % 64) :: b64Encode rest

/-- Standard base64 decoding with padding (`BASE64_STANDARD.decode`),
rejecting non-canonical padding bits. -/
def b64Decode : List Char → Option (List Nat)
  | [] => some []
  | c1 :: c2 :: c3 :: c4 :: rest =>
    if c4 = eqPadChar then
      if rest.isEmpty then
        if c3 = eqPadChar then
          match b64Val c1, b64Val c2 with
          | some s1, some s2 => if s2 % 16 = 0 then some [s1 * 4 + s2 / 16] else none
          | _, _ => none
        else
          match b64Val c1, b64Val c2, b64Val c3 with
          | some s1, some s2, some s3 =>
            if s3 % 4 = 0 then some [s1 * 4 + s2 / 16, s2 % 16 * 16 + s3 / 4] else none
          | _, _, _ => none
      else none
    else
      match b64Val c1, b64Val c2, b64Val c3, b64Val c4 with
      | some s1, some s2, some s3, some s4 =>
        (b64Decode rest).map (fun bs =>
          (s1 * 4 + s2 / 16) :: (s2 % 16 * 16 + s3 / 4) :: (s3 % 4 * 64 + s4) :: bs)
      | _, _, _, _ => none
  | _ => none

lemma b64Val_b64Char_fin : ∀ n : Fin 64,
    b64Val (b64Char n.val) = some n.val ∧ b64Char n.val ≠ eqPadChar := by
  decide

lemma b64Val_b64Char {n : Nat} (h : n < 64) : b64Val (b64Char n) = some n :=
  (b64Val_b64Char_fin ⟨n, h⟩).1

lemma b64Char_ne_pad {n : Nat} (h : n < 64) : b64Char n ≠ eqPadChar :=
  (b64Val_b64Char_fin ⟨n, h⟩).2

lemma b64Decode_encode : ∀ bs : List Nat, (∀ x ∈ bs, x < 256) →
    b64Decode (b64Encode bs) = some bs := by
  intro bs
  induction bs using b64Encode.induct with
  | case1 =>
    intro _
    rfl
  | case2 a =>
    intro hlt
    have ha : a < 256 := hlt a (by simp)
    simp only [b64Encode, b64Decode, List.isEmpty_nil, if_true, reduceIte]
    rw [b64Val_b64Char (by omega), b64Val_b64Char (by omega)]
    dsimp only
    rw [if_pos (by omega)]
    congr 1
    have h1 : a / 4 * 4 + a % 4 * 16 / 16 = a := by omega
    rw [h1]
  | case3 a b =>
    intro hlt
    have ha : a < 256 := hlt a (by simp)
    have hb : b < 256 := hlt b (by simp)
    simp only [b64Encode, b64Decode, List.isEmpty_nil, if_true, reduceIte]
    rw [if_neg (b64Char_ne_pad (by omega))]
    rw [b64Val_b64Char (by omega), b64Val_b64Char (by omega), b64Val_b64Char (by omega)]
    dsimp only
    rw [if_pos (by omega)]
    congr 1
    have h1 : a / 4 * 4 + (a % 4 * 16 + b / 16) / 16 = a := by omega
    have h2 : (a % 4 * 16 + b / 16) % 16 * 16 + b % 16 * 4 / 4 = b := by omega
    rw [h1, h2]
  | case4 a b c rest ih =>
    intro hlt
    have ha : a < 256 := hlt a (by simp)
    have hb : b < 256 := hlt b (by simp)
    have hc : c < 256 := hlt c (by simp)
    simp only [b64Encode, b64Decode]
    rw [if_neg (b64Char_ne_pad (by omega))]
    rw [b64Val_b64Char (by omega), b64Val_b64Char (by omega), b64Val_b64Char (by omega),
      b64Val_b64Char (by omega)]
    dsimp only
    rw [ih (fun x hx => hlt x (by simp [hx]))]
    have h1 : a / 4 * 4 + (a % 4 * 16 + b / 16) / 16 = a := by omega
    have h2 : (a % 4 * 16 + b / 16) % 16 * 16 + (b % 16 * 4 + c / 64) / 4 = b := by omega
    have h3 : (b % 16 * 4 + c / 64) % 4 * 64 + c % 64 = c := by omega
    rw [h1, h2, h3]
    rfl

/-- Named characters of the JSON syntax (braces written via code points). -/
def quoteChar : Char := Char.ofNat 34

/-- Backslash. -/
def backslashChar : Char := Char.ofNat 92

/-- Opening brace. -/
def lbraceChar : Char := Char.ofNat 123

/-- Closing brace. -/
def rbraceChar : Char := Char.ofNat 125

/-- Opening bracket. -/
def lbracketChar : Char := Char.ofNat 91

/-- Closing bracket. -/
def rbracketChar : Char := Char.ofNat 93

/-- Colon. -/
def colonChar : Char := Char.ofNat 58

/-- Comma. -/
def commaChar : Char := Char.ofNat 44

/-- Line feed. -/
def newlineChar : Char := Char.ofNat 10

/-- Carriage return. -/
def crChar : Char := Char.ofNat 13

/-- NUL. -/
def nullChar : Char := Char.ofNat 0

/-- Lowercase hexadecimal digit, as `serde_json` prints in `\u` escapes. -/
def hexDigit (d : Nat) : Char :=
  if d < 10 then Char.ofNat (48 + d) else Char.ofNat (87 + d)

/-- Hexadecimal digit value. -/
def hexVal (c : Char) : Option Nat :=
  let n := c.toNat
  if 48 ≤ n ∧ n ≤ 57 then some (n - 48)
  else if 97 ≤ n ∧ n ≤ 102 then some (n - 87)
  else if 65 ≤ n ∧ n ≤ 70 then some (n - 55)
  else none

/-- `serde_json`'s escaping of one character inside a JSON string: quote and
backslash are backslash-escaped, the control characters BS/TAB/LF/FF/CR use
their short escapes, other control characters use `\u00xx`, and everything
else is emitted raw. -/
def escapeChar (c : Char) : List Char :=
  if c = quoteChar then [backslashChar, quoteChar]
  else if c = backslashChar then [backslashChar, backslashChar]
  else if c.toNat = 8 then [backslashChar, 'b']
  else if c.toNat = 9 then [backslashChar, 't']
  else if c.toNat = 10 then [backslashChar, 'n']
  else if c.toNat = 12 then [backslashChar, 'f']
  else if c.toNat = 13 then [backslashChar, 'r']
  else if c.toNat < 32 then
    [backslashChar, 'u', '0', '0', hexDigit (c.toNat / 16), hexDigit (c.toNat % 16)]
  else [c]

/-- The escaped body of a JSON string. -/
def jsonEscape (s : List Char) : List Char :=
  s.flatMap escapeChar

/-- A serialized JSON string, quotes included. -/
def printJsonString (s : List Char) : List Char :=
  quoteChar :: jsonEscape s ++ [quoteChar]

/-- JSON string body parser: reads characters and escapes until the closing
quote, returning the decoded content and the input after the quote. -/
def parseJsonStringGo : List Char → Option (List Char × List Char)
  | [] => none
  | c :: rest =>
    if c = quoteChar then some ([], rest)
    else if c = backslashChar then
      match rest with
      | [] => none
      | e :: rest1 =>
        if e = quoteChar then
          (parseJsonStringGo rest1).map (fun p => (quoteChar :: p.1, p.2))
        else if e = backslashChar then
          (parseJsonStringGo rest1).map (fun p => (backslashChar :: p.1, p.2))
        else if e = '/' then
          (parseJsonStringGo rest1).map (fun p => ('/' :: p.1, p.2))
        else if e = 'b' then
          (parseJsonStringGo rest1).map (fun p => (Char.ofNat 8 :: p.1, p.2))
        else if e = 't' then
          (parseJsonStringGo rest1).map (fun p => (Char.ofNat 9 :: p.1, p.2))
        else if e = 'n' then
          (parseJsonStringGo rest1).map (fun p => (Char.ofNat 10 :: p.1, p.2))
        else if e = 'f' then
          (parseJsonStringGo rest1).map (fun p => (Char.ofNat 12 :: p.1, p.2))
        else if e = 'r' then
          (parseJsonStringGo rest1).map (fun p => (Char.ofNat 13 :: p.1, p.2))
        else if e = 'u' then
          match rest1 with
          | h1 :: h2 :: h3 :: h4 :: rest2 =>
            match hexVal h1, hexVal h2, hexVal h3, hexVal h4 with
            | some v1, some v2, some v3, some v4 =>
              (parseJsonStringGo rest2).map (fun p =>
                (Char.ofNat (v1 * 4096 + v2 * 256 + v3 * 16 + v4) :: p.1, p.2))
            | _, _, _, _ => none
          | _ => none
        else none
    else (parseJsonStringGo rest).map (fun p => (c :: p.1, p.2))

/-- A JSON string parser: expects the opening quote, then the body. -/
def parseJsonString : List Char → Option (List Char × List Char)
  | c :: rest => if c = quoteChar then parseJsonStringGo rest else none
  | [] => none

lemma hexVal_hexDigit_fin : ∀ d : Fin 16, hexVal (hexDigit d.val) = some d.val := by
  decide

lemma parseJsonStringGo_escapeChar (c : Char) (tail : List Char) :
    parseJsonStringGo (escapeChar c ++ tail) =
      (parseJsonStringGo tail).map (fun p => (c :: p.1, p.2)) := by
  have hofnat : Char.ofNat c.toNat = c := Char.ofNat_toNat c
  unfold escapeChar
  by_cases h1 : c = quoteChar
  · subst h1
    rw [if_pos rfl]
    rw [show ([backslashChar, quoteChar] ++ tail)
      = backslashChar :: quoteChar :: tail from rfl]
    rw [parseJsonStringGo.eq_def]
    dsimp only
    simp only [Char.reduceEq, reduceIte]
    repeat rw [if_neg (by decide)]
  · rw [if_neg h1]
    by_cases h2 : c = backslashChar
    · subst h2
      rw [if_pos rfl]
      rw [show ([backslashChar, backslashChar] ++ tail)
        = backslashChar :: backslashChar :: tail from rfl]
      rw [parseJsonStringGo.eq_def]
      dsimp only
      simp only [Char.reduceEq, reduceIte]
      repeat rw [if_neg (by decide)]
    · rw [if_neg h2]
      by_cases h3 : c.toNat = 8
      · rw [if_pos h3]
        rw [show ([backslashChar, 'b'] ++ tail) = backslashChar :: 'b' :: tail from rfl]
        rw [parseJsonStringGo.eq_def]
        dsimp only
        simp only [Char.reduceEq, reduceIte]
        repeat rw [if_neg (by decide)]
        rw [← h3, hofnat]
      · rw [if_neg h3]
        by_cases h4 : c.toNat = 9
        · rw [if_pos h4]
          rw [show ([backslashChar, 't'] ++ tail) = backslashChar :: 't' :: tail from rfl]
          rw [parseJsonStringGo.eq_def]
          dsimp only
          simp only [Char.reduceEq, reduceIte]
          repeat rw [if_neg (by decide)]
          rw [← h4, hofnat]
        · rw [if_neg h4]
          by_cases h5 : c.toNat = 10
          · rw [if_pos h5]
            rw [show ([backslashChar, 'n'] ++ tail)
              = backslashChar :: 'n' :: tail from rfl]
            rw [parseJsonStringGo.eq_def]
            dsimp only
            simp only [Char.reduceEq, reduceIte]
            repeat rw [if_neg (by decide)]
            rw [← h5, hofnat]
          · rw [if_neg h5]
            by_cases h6 : c.toNat = 12
            · rw [if_pos h6]
              rw [show ([backslashChar, 'f'] ++ tail)
                = backslashChar :: 'f' :: tail from rfl]
              rw [parseJsonStringGo.eq_def]
              dsimp only
              simp only [Char.reduceEq, reduceIte]
              repeat rw [if_neg (by decide)]
              rw [← h6, hofnat]
            · rw [if_neg h6]
              by_cases h7 : c.toNat = 13
              · rw [if_pos h7]
                rw [show ([backslashChar, 'r'] ++ tail)
                  = backslashChar :: 'r' :: tail from rfl]
                rw [parseJsonStringGo.eq_def]
                dsimp only
                simp only [Char.reduceEq, reduceIte]
                repeat rw [if_neg (by decide)]
                rw [← h7, hofnat]
              · rw [if_neg h7]
                by_cases h8 : c.toNat < 32
                · rw [if_pos h8]
                  rw [show ([backslashChar, 'u', '0', '0', hexDigit (c.toNat / 16),
                      hexDigit (c.toNat % 16)] ++ tail)
                    = backslashChar :: 'u' :: '0' :: '0' :: hexDigit (c.toNat / 16)
                      :: hexDigit (c.toNat % 16) :: tail from rfl]
                  rw [parseJsonStringGo.eq_def]
                  dsimp only
                  simp only [Char.reduceEq, reduceIte]
                  have hv3 : hexVal (hexDigit (c.toNat / 16)) = some (c.toNat / 16) :=
                    hexVal_hexDigit_fin ⟨c.toNat / 16, by omega⟩
                  have hv4 : hexVal (hexDigit (c.toNat % 16)) = some (c.toNat % 16) :=
                    hexVal_hexDigit_fin ⟨c.toNat % 16, by omega⟩
                  repeat rw [if_neg (by decide)]
                  rw [show hexVal '0' = some 0 from by decide, hv3, hv4]
                  dsimp only
                  have harith : 0 * 4096 + 0 * 256 + c.toNat / 16 * 16 + c.toNat % 16
                      = c.toNat := by omega
                  rw [harith, hofnat]
                · rw [if_neg h8]
                  rw [show ([c] ++ tail) = c :: tail from rfl]
                  rw [parseJsonStringGo.eq_def]
                  dsimp only
                  rw [if_neg h1, if_neg h2]

lemma parseJsonStringGo_jsonEscape (s rest : List Char) :
    parseJsonStringGo (jsonEscape s ++ (quoteChar :: rest)) = some (s, rest) := by
  induction s with
  | nil =>
    rw [jsonEscape, List.flatMap_nil, List.nil_append]
    rw [parseJsonStringGo.eq_def]
    dsimp only
    rw [if_pos rfl]
  | cons c cs ih =>
    rw [jsonEscape, List.flatMap_cons, List.append_assoc]
    rw [show cs.flatMap escapeChar = jsonEscape cs from rfl]
    rw [parseJsonStringGo_escapeChar, ih]
    rfl

lemma parseJsonString_printJsonString (s rest : List Char) :
    parseJsonString (printJsonString s ++ rest) = some (s, rest) := by
  rw [printJsonString]
  rw [show ((quoteChar :: jsonEscape s ++ [quoteChar]) ++ rest)
    = quoteChar :: (jsonEscape s ++ (quoteChar :: rest)) by simp]
  rw [parseJsonString.eq_def]
  dsimp only
  rw [if_pos rfl, parseJsonStringGo_jsonEscape]

/-- The decimal digit character for a digit below ten. -/
def natDigitChar (d : Nat) : Char :=
  if d = 0 then '0' else if d = 1 then '1' else if d = 2 then '2'
  else if d = 3 then '3' else if d = 4 then '4' else if d = 5 then '5'
  else if d = 6 then '6' else if d = 7 then '7' else if d = 8 then '8' else '9'

/-- Decimal printing of a natural number (serde_json integer output). -/
def natToDigits (n : Nat) : List Char :=
  if h : n < 10 then [natDigitChar n]
  else natToDigits (n / 10) ++ [natDigitChar (n % 10)]
  termination_by n
  decreasing_by omega

/-- ASCII decimal digit test. -/
def isDigitChar (c : Char) : Bool :=
  48 ≤ c.toNat && c.toNat ≤ 57

/-- Accumulating decimal parser: consumes leading digits. -/
def parseDigitsGo : List Char → Nat → Nat × List Char
  | [], acc => (acc, [])
  | c :: rest, acc =>
    if isDigitChar c then parseDigitsGo rest (acc * 10 + (c.toNat - 48))
    else (acc, c :: rest)

/-- Decimal number parser: requires at least one digit. -/
def parseNat : List Char → Option (Nat × List Char)
  | [] => none
  | c :: rest =>
    if isDigitChar c then some (parseDigitsGo rest (c.toNat - 48)) else none

/-- The remaining input does not start with a digit. -/
def noLeadingDigit : List Char → Bool
  | [] => true
  | c :: _ => !isDigitChar c

lemma natDigitChar_spec : ∀ d : Fin 10,
    (natDigitChar d.val).toNat = 48 + d.val ∧ isDigitChar (natDigitChar d.val) = true := by
  decide

lemma natToDigits_digits (n : Nat) : ∀ c ∈ natToDigits n, isDigitChar c = true := by
  induction n using natToDigits.induct with
  | case1 n h =>
    rw [natToDigits.eq_def, dif_pos h]
    intro c hc
    rw [List.mem_singleton] at hc
    subst hc
    exact (natDigitChar_spec ⟨n, h⟩).2
  | case2 n h ih =>
    rw [natToDigits.eq_def, dif_neg h]
    intro c hc
    rw [List.mem_append] at hc
    rcases hc with hc | hc
    · exact ih c hc
    · rw [List.mem_singleton] at hc
      subst hc
      exact (natDigitChar_spec ⟨n % 10, by omega⟩).2

lemma natToDigits_ne_nil (n : Nat) : natToDigits n ≠ [] := by
  rw [natToDigits.eq_def]
  by_cases h : n < 10
  · rw [dif_pos h]
    simp
  · rw [dif_neg h]
    simp

lemma parseDigitsGo_notDigit (rest : List Char) (acc : Nat)
    (hrest : noLeadingDigit rest = true) :
    parseDigitsGo rest acc = (acc, rest) := by
  cases rest with
  | nil => rfl
  | cons r rs =>
    simp only [noLeadingDigit, Bool.not_eq_eq_eq_not, Bool.not_true] at hrest
    rw [parseDigitsGo.eq_def]
    dsimp only
    rw [hrest]
    rfl

lemma parseDigitsGo_digits (ds : List Char) (rest : List Char) (acc : Nat)
    (hds : ∀ c ∈ ds, isDigitChar c = true) (hrest : noLeadingDigit rest = true) :
    parseDigitsGo (ds ++ rest) acc
      = (List.foldl (fun a c => a * 10 + (c.toNat - 48)) acc ds, rest) := by
  induction ds generalizing acc with
  | nil =>
    rw [List.nil_append, List.foldl_nil]
    exact parseDigitsGo_notDigit rest acc hrest
  | cons d ds ih =>
    rw [List.cons_append, List.foldl_cons]
    rw [parseDigitsGo.eq_def]
    dsimp only
    rw [hds d (List.mem_cons_self d ds)]
    rw [if_pos rfl]
    exact ih _ (fun c hc => hds c (List.mem_cons_of_mem d hc))

lemma foldl_digits_natToDigits (n : Nat) : ∀ acc : Nat,
    List.foldl (fun a c => a * 10 + (c.toNat - 48)) acc (natToDigits n)
      = acc * 10 ^ (natToDigits n).length + n := by
  induction n using natToDigits.induct with
  | case1 n h =>
    intro acc
    rw [natToDigits.eq_def, dif_pos h]
    rw [List.foldl_cons, List.foldl_nil, List.length_singleton]
    have hd := (natDigitChar_spec ⟨n, h⟩).1
    dsimp only at hd
    rw [hd]
    omega
  | case2 n h ih =>
    intro acc
    rw [natToDigits.eq_def, dif_neg h]
    rw [List.foldl_append, List.foldl_cons, List.foldl_nil]
    rw [ih acc]
    have hd := (natDigitChar_spec ⟨n % 10, by omega⟩).1
    dsimp only at hd
    rw [hd]
    rw [List.length_append, List.length_singleton, pow_succ, ← mul_assoc]
    have hdiv : n / 10 * 10 + (n % 10) = n := by omega
    generalize acc * 10 ^ (natToDigits (n / 10)).length = k
    omega

lemma parseNat_natToDigits (n : Nat) (rest : List Char)
    (hrest : noLeadingDigit rest = true) :
    parseNat (natToDigits n ++ rest) = some (n, rest) := by
  obtain ⟨c, ds, hds⟩ : ∃ c ds, natToDigits n = c :: ds := by
    cases h : natToDigits n with
    | nil => exact absurd h (natToDigits_ne_nil n)
    | cons c ds => exact ⟨c, ds, rfl⟩
  have hdig : isDigitChar c = true :=
    natToDigits_digits n c (by rw [hds]; exact List.mem_cons_self c ds)
  have hall : ∀ x ∈ ds, isDigitChar x = true := by
    intro x hx
    exact natToDigits_digits n x (by rw [hds]; exact List.mem_cons_of_mem c hx)
  rw [hds, List.cons_append, parseNat.eq_def]
  dsimp only
  rw [if_pos hdig]
  rw [parseDigitsGo_digits ds rest _ hall hrest]
  have h0 := foldl_digits_natToDigits n 0
  rw [hds, List.foldl_cons] at h0
  have hz : (0 * 10 + (c.toNat - 48)) = c.toNat - 48 := by omega
  rw [hz] at h0
  rw [h0]
  simp

/-- Literal matcher: consumes exactly the literal, returning the rest. -/
def parseLit : List Char → List Char → Option (List Char)
  | [], s => some s
  | _ :: _, [] => none
  | c :: cs, x :: xs => if x = c then parseLit cs xs else none

lemma parseLit_append (lit rest : List Char) : parseLit lit (lit ++ rest) = some rest := by
  induction lit with
  | nil => rfl
  | cons c cs ih =>
    rw [List.cons_append, parseLit.eq_def]
    dsimp only
    rw [if_pos rfl, ih]

/-- The serde key of `Assertion::Condition` under `rename_all = "snake_case"`. -/
def conditionKey : List Char := ['c', 'o', 'n', 'd', 'i', 't', 'i', 'o', 'n']

/-- The serde key of `Assertion::LessThan`. -/
def lessThanKey : List Char := ['l', 'e', 's', 's', '_', 't', 'h', 'a', 'n']

/-- The serde key of `Assertion::LessThanOrEqual`. -/
def lessThanOrEqualKey : List Char :=
  lessThanKey ++ ['_', 'o', 'r', '_', 'e', 'q', 'u', 'a', 'l']

/-- The serde key of `Assertion::GreaterThan`. -/
def greaterThanKey : List Char := ['g', 'r', 'e', 'a', 't', 'e', 'r', '_', 't', 'h', 'a', 'n']

/-- The serde key of `Assertion::GreaterThanOrEqual`. -/
def greaterThanOrEqualKey : List Char :=
  greaterThanKey ++ ['_', 'o', 'r', '_', 'e', 'q', 'u', 'a', 'l']

/-- The serde key of `AssertionScope::Sometimes`. -/
def sometimesKey : List Char := ['s', 'o', 'm', 'e', 't', 'i', 'm', 'e', 's']

/-- The serde key of `AssertionScope::Always`. -/
def alwaysKey : List Char := ['a', 'l', 'w', 'a', 'y', 's']

/-- The serde key of `StdoutMessage::Assertion` (no `rename_all` on that enum,
so the Rust spelling with a capital A is kept). -/
def assertionTag : List Char := ['A', 's', 's', 'e', 'r', 't', 'i', 'o', 'n']

/-- The serde key of `StdoutMessage::Probe`. -/
def probeTag : List Char := ['P', 'r', 'o', 'b', 'e']

/-- JSON boolean output. -/
def printBool : Bool → List Char
  | true => ['t', 'r', 'u', 'e']
  | false => ['f', 'a', 'l', 's', 'e']

/-- JSON boolean parser. -/
def parseBool (s : List Char) : Option (Bool × List Char) :=
  match parseLit (printBool true) s with
  | some r => some (true, r)
  | none =>
    match parseLit (printBool false) s with
    | some r => some (false, r)
    | none => none

/-- serde_json serialization of `Assertion` (compact output): externally
tagged with snake_case keys; the newtype variant `Condition` serializes its
payload inline, the tuple variants serialize their two `u64` payloads as a
two-element array. -/
def printAssertion : Assertion → List Char
  | .Condition b =>
    lbraceChar :: printJsonString conditionKey ++ (colonChar :: printBool b) ++ [rbraceChar]
  | .LessThan a b =>
    lbraceChar :: printJsonString lessThanKey ++ (colonChar :: lbracketChar :: natToDigits a)
      ++ (commaChar :: natToDigits b) ++ [rbracketChar, rbraceChar]
  | .LessThanOrEqual a b =>
    lbraceChar :: printJsonString lessThanOrEqualKey
      ++ (colonChar :: lbracketChar :: natToDigits a)
      ++ (commaChar :: natToDigits b) ++ [rbracketChar, rbraceChar]
  | .GreaterThan a b =>
    lbraceChar :: printJsonString greaterThanKey
      ++ (colonChar :: lbracketChar :: natToDigits a)
      ++ (commaChar :: natToDigits b) ++ [rbracketChar, rbraceChar]
  | .GreaterThanOrEqual a b =>
    lbraceChar :: printJsonString greaterThanOrEqualKey
      ++ (colonChar :: lbracketChar :: natToDigits a)
      ++ (commaChar :: natToDigits b) ++ [rbracketChar, rbraceChar]

/-- A `[u64, u64]` JSON array parser (compact form). -/
def parseU64Pair (s : List Char) : Option ((Nat × Nat) × List Char) :=
  match parseLit [lbracketChar] s with
  | none => none
  | some s1 =>
    match parseNat s1 with
    | none => none
    | some av =>
      match parseLit [commaChar] av.2 with
      | none => none
      | some s2 =>
        match parseNat s2 with
        | none => none
        | some bv =>
          match parseLit [rbracketChar] bv.2 with
          | none => none
          | some s3 => some ((av.1, bv.1), s3)

/-- Model of serde_json deserialization of `Assertion`: an externally tagged
single-entry object whose key selects the variant (strict compact grammar,
covering serde_json compact output). -/
def parseAssertion (s : List Char) : Option (Assertion × List Char) :=
  match parseLit [lbraceChar] s with
  | none => none
  | some s1 =>
    match parseJsonString s1 with
    | none => none
    | some ks =>
      match parseLit [colonChar] ks.2 with
      | none => none
      | some s2 =>
        if ks.1 = conditionKey then
          match parseBool s2 with
          | none => none
          | some bs =>
            match parseLit [rbraceChar] bs.2 with
            | none => none
            | some s3 => some (Assertion.Condition bs.1, s3)
        else
          match parseU64Pair s2 with
          | none => none
          | some ps =>
            match parseLit [rbraceChar] ps.2 with
            | none => none
            | some s3 =>
              if ks.1 = lessThanKey then some (Assertion.LessThan ps.1.1 ps.1.2, s3)
              else if ks.1 = lessThanOrEqualKey then
                some (Assertion.LessThanOrEqual ps.1.1 ps.1.2, s3)
              else if ks.1 = greaterThanKey then
                some (Assertion.GreaterThan ps.1.1 ps.1.2, s3)
              else if ks.1 = greaterThanOrEqualKey then
                some (Assertion.GreaterThanOrEqual ps.1.1 ps.1.2, s3)
              else none

/-- serde_json serialization of `AssertionScope` (compact output): externally
tagged tuple variants `sometimes`/`always` whose payload is the inner
assertion followed by the message string. -/
def printAssertionScope : AssertionScope → List Char
  | .Sometimes a m =>
    lbraceChar :: printJsonString sometimesKey
      ++ (colonChar :: lbracketChar :: printAssertion a)
      ++ (commaChar :: printJsonString m) ++ [rbracketChar, rbraceChar]
  | .Always a m =>
    lbraceChar :: printJsonString alwaysKey
      ++ (colonChar :: lbracketChar :: printAssertion a)
      ++ (commaChar :: printJsonString m) ++ [rbracketChar, rbraceChar]

/-- Model of serde_json deserialization of `AssertionScope`. -/
def parseAssertionScope (s : List Char) : Option (AssertionScope × List Char) :=
  match parseLit [lbraceChar] s with
  | none => none
  | some s1 =>
    match parseJsonString s1 with
    | none => none
    | some ks =>
      match parseLit [colonChar, lbracketChar] ks.2 with
      | none => none
      | some s2 =>
        match parseAssertion s2 with
        | none => none
        | some asr =>
          match parseLit [commaChar] asr.2 with
          | none => none
          | some s3 =>
            match parseJsonString s3 with
            | none => none
            | some ms =>
              match parseLit [rbracketChar, rbraceChar] ms.2 with
              | none => none
              | some s4 =>
                if ks.1 = sometimesKey then
                  some (AssertionScope.Sometimes asr.1 ms.1, s4)
                else if ks.1 = alwaysKey then
                  some (AssertionScope.Always asr.1 ms.1, s4)
                else none

/-- `serde_json::from_str::<AssertionScope>`: the whole input must be one
serialized scope. -/
def parseAssertionScopeFull (s : List Char) : Option AssertionScope :=
  match parseAssertionScope s with
  | none => none
  | some r => if r.2 = [] then some r.1 else none

/-- Embedding of `enum StdoutMessage` (`fuzzamoto/src/lib.rs:17-20`). -/
inductive StdoutMessage where
  | Probe (data : List Char)
  | Assertion (data : List Char)
deriving DecidableEq, Repr

/-- serde_json serialization of `StdoutMessage` (compact output): externally
tagged newtype variants keyed by the Rust variant names `Probe`/`Assertion`. -/
def printStdoutMessage : StdoutMessage → List Char
  | .Probe d =>
    lbraceChar :: printJsonString probeTag ++ (colonChar :: printJsonString d) ++ [rbraceChar]
  | .Assertion d =>
    lbraceChar :: printJsonString assertionTag
      ++ (colonChar :: printJsonString d) ++ [rbraceChar]

/-- Model of `serde_json::from_str::<StdoutMessage>`: the whole input must be
one serialized envelope. -/
def parseStdoutMessage (s : List Char) : Option StdoutMessage :=
  match parseLit [lbraceChar] s with
  | none => none
  | some s1 =>
    match parseJsonString s1 with
    | none => none
    | some ks =>
      match parseLit [colonChar] ks.2 with
      | none => none
      | some s2 =>
        match parseJsonString s2 with
        | none => none
        | some ds =>
          match parseLit [rbraceChar] ds.2 with
          | some [] =>
            if ks.1 = probeTag then some (StdoutMessage.Probe ds.1)
            else if ks.1 = assertionTag then some (StdoutMessage.Assertion ds.1)
            else none
          | _ => none

lemma noLeadingDigit_cons (c : Char) (rest : List Char) (h : isDigitChar c = false) :
    noLeadingDigit (c :: rest) = true := by
  simp only [noLeadingDigit]
  rw [h]
  rfl

lemma parseBool_printBool (b : Bool) (rest : List Char) :
    parseBool (printBool b ++ rest) = some (b, rest) := by
  cases b with
  | true =>
    unfold parseBool
    rw [parseLit_append]
  | false =>
    unfold parseBool
    have hne : parseLit (printBool true) (printBool false ++ rest) = none := by
      rw [show printBool false ++ rest = 'f' :: ('a' :: 'l' :: 's' :: ('e' :: rest)) from rfl]
      rw [show printBool true = 't' :: ('r' :: ('u' :: ('e' :: []))) from rfl]
      rw [parseLit.eq_def]
      dsimp only
      rw [if_neg (by decide)]
    rw [hne, parseLit_append]

lemma parseU64Pair_print (a b : Nat) (rest : List Char) :
    parseU64Pair (lbracketChar :: (natToDigits a ++ (commaChar ::
      (natToDigits b ++ (rbracketChar :: rest))))) = some ((a, b), rest) := by
  unfold parseU64Pair
  rw [show (lbracketChar :: (natToDigits a ++ (commaChar :: (natToDigits b
    ++ (rbracketChar :: rest))))) = [lbracketChar] ++ (natToDigits a ++ (commaChar ::
    (natToDigits b ++ (rbracketChar :: rest)))) from rfl]
  rw [parseLit_append]
  dsimp only
  rw [parseNat_natToDigits a _ (noLeadingDigit_cons _ _ (by decide))]
  dsimp only
  rw [show (commaChar :: (natToDigits b ++ (rbracketChar :: rest)))
    = [commaChar] ++ (natToDigits b ++ (rbracketChar :: rest)) from rfl]
  rw [parseLit_append]
  dsimp only
  rw [parseNat_natToDigits b _ (noLeadingDigit_cons _ _ (by decide))]
  dsimp only
  rw [show (rbracketChar :: rest) = [rbracketChar] ++ rest from rfl, parseLit_append]

lemma parseAssertion_print (a : Assertion) (rest : List Char) :
    parseAssertion (printAssertion a ++ rest) = some (a, rest) := by
  cases a with
  | Condition b =>
    have hshape : printAssertion (Assertion.Condition b) ++ rest
        = [lbraceChar] ++ (printJsonString conditionKey ++ ([colonChar]
          ++ (printBool b ++ ([rbraceChar] ++ rest)))) := by
      simp [printAssertion]
    rw [hshape]
    unfold parseAssertion
    rw [parseLit_append]
    dsimp only
    rw [parseJsonString_printJsonString]
    dsimp only
    rw [parseLit_append]
    dsimp only
    rw [if_pos rfl]
    rw [parseBool_printBool]
    dsimp only
    rw [parseLit_append]
  | LessThan x y =>
    have hshape : printAssertion (Assertion.LessThan x y) ++ rest
        = [lbraceChar] ++ (printJsonString lessThanKey ++ ([colonChar]
          ++ (lbracketChar :: (natToDigits x ++ (commaChar :: (natToDigits y
          ++ (rbracketChar :: ([rbraceChar] ++ rest)))))))) := by
      simp [printAssertion]
    rw [hshape]
    unfold parseAssertion
    rw [parseLit_append]
    dsimp only
    rw [parseJsonString_printJsonString]
    dsimp only
    rw [parseLit_append]
    dsimp only
    rw [if_neg (by decide)]
    rw [parseU64Pair_print]
    dsimp only
    rw [parseLit_append]
    dsimp only
    rw [if_pos rfl]
  | LessThanOrEqual x y =>
    have hshape : printAssertion (Assertion.LessThanOrEqual x y) ++ rest
        = [lbraceChar] ++ (printJsonString lessThanOrEqualKey ++ ([colonChar]
          ++ (lbracketChar :: (natToDigits x ++ (commaChar :: (natToDigits y
          ++ (rbracketChar :: ([rbraceChar] ++ rest)))))))) := by
      simp [printAssertion]
    rw [hshape]
    unfold parseAssertion
    rw [parseLit_append]
    dsimp only
    rw [parseJsonString_printJsonString]
    dsimp only
    rw [parseLit_append]
    dsimp only
    rw [if_neg (by decide)]
    rw [parseU64Pair_print]
    dsimp only
    rw [parseLit_append]
    dsimp only
    rw [if_neg (by decide), if_pos rfl]
  | GreaterThan x y =>
    have hshape : printAssertion (Assertion.GreaterThan x y) ++ rest
        = [lbraceChar] ++ (printJsonString greaterThanKey ++ ([colonChar]
          ++ (lbracketChar :: (natToDigits x ++ (commaChar :: (natToDigits y
          ++ (rbracketChar :: ([rbraceChar] ++ rest)))))))) := by
      simp [printAssertion]
    rw [hshape]
    unfold parseAssertion
    rw [parseLit_append]
    dsimp only
    rw [parseJsonString_printJsonString]
    dsimp only
    rw [parseLit_append]
    dsimp only
    rw [if_neg (by decide)]
    rw [parseU64Pair_print]
    dsimp only
    rw [parseLit_append]
    dsimp only
    rw [if_neg (by decide), if_neg (by decide), if_pos rfl]
  | GreaterThanOrEqual x y =>
    have hshape : printAssertion (Assertion.GreaterThanOrEqual x y) ++ rest
        = [lbraceChar] ++ (printJsonString greaterThanOrEqualKey ++ ([colonChar]
          ++ (lbracketChar :: (natToDigits x ++ (commaChar :: (natToDigits y
          ++ (rbracketChar :: ([rbraceChar] ++ rest)))))))) := by
      simp [printAssertion]
    rw [hshape]
    unfold parseAssertion
    rw [parseLit_append]
    dsimp only
    rw [parseJsonString_printJsonString]
    dsimp only
    rw [parseLit_append]
    dsimp only
    rw [if_neg (by decide)]
    rw [parseU64Pair_print]
    dsimp only
    rw [parseLit_append]
    dsimp only
    rw [if_neg (by decide), if_neg (by decide), if_neg (by decide), if_pos rfl]

lemma parseAssertionScope_print (S : AssertionScope) (rest : List Char) :
    parseAssertionScope (printAssertionScope S ++ rest) = some (S, rest) := by
  cases S with
  | Sometimes a m =>
    have hshape : printAssertionScope (AssertionScope.Sometimes a m) ++ rest
        = [lbraceChar] ++ (printJsonString sometimesKey ++ ([colonChar, lbracketChar]
          ++ (printAssertion a ++ ([commaChar] ++ (printJsonString m
          ++ ([rbracketChar, rbraceChar] ++ rest)))))) := by
      simp [printAssertionScope]
    rw [hshape]
    unfold parseAssertionScope
    rw [parseLit_append]
    dsimp only
    rw [parseJsonString_printJsonString]
    dsimp only
    rw [parseLit_append]
    dsimp only
    rw [parseAssertion_print]
    dsimp only
    rw [parseLit_append]
    dsimp only
    rw [parseJsonString_printJsonString]
    dsimp only
    rw [parseLit_append]
    dsimp only
    rw [if_pos rfl]
  | Always a m =>
    have hshape : printAssertionScope (AssertionScope.Always a m) ++ rest
        = [lbraceChar] ++ (printJsonString alwaysKey ++ ([colonChar, lbracketChar]
          ++ (printAssertion a ++ ([commaChar] ++ (printJsonString m
          ++ ([rbracketChar, rbraceChar] ++ rest)))))) := by
      simp [printAssertionScope]
    rw [hshape]
    unfold parseAssertionScope
    rw [parseLit_append]
    dsimp only
    rw [parseJsonString_printJsonString]
    dsimp only
    rw [parseLit_append]
    dsimp only
    rw [parseAssertion_print]
    dsimp only
    rw [parseLit_append]
    dsimp only
    rw [parseJsonString_printJsonString]
    dsimp only
    rw [parseLit_append]
    dsimp only
    rw [if_neg (by decide), if_pos rfl]

lemma parseAssertionScopeFull_print (S : AssertionScope) :
    parseAssertionScopeFull (printAssertionScope S) = some S := by
  unfold parseAssertionScopeFull
  have h := parseAssertionScope_print S []
  rw [List.append_nil] at h
  rw [h]
  rfl

lemma parseStdoutMessage_print (d : List Char) :
    parseStdoutMessage (printStdoutMessage (StdoutMessage.Assertion d))
      = some (StdoutMessage.Assertion d) := by
  have hshape : printStdoutMessage (StdoutMessage.Assertion d)
      = [lbraceChar] ++ (printJsonString assertionTag ++ ([colonChar]
        ++ (printJsonString d ++ ([rbraceChar] ++ [])))) := by
    simp [printStdoutMessage]
  rw [hshape]
  unfold parseStdoutMessage
  rw [parseLit_append]
  dsimp only
  rw [parseJsonString_printJsonString]
  dsimp only
  rw [parseLit_append]
  dsimp only
  rw [parseJsonString_printJsonString]
  dsimp only
  rw [parseLit_append]
  dsimp only
  rw [if_neg (by decide), if_pos rfl]

/-- A trailing carriage return stripped, as `str::lines` does for `\r\n`. -/
def stripTrailingCR (l : List Char) : List Char :=
  if l.getLast? = some crChar then l.dropLast else l

/-- Core of `str::lines`: split on `\n`, stripping a final `\r` from each
terminated line; the last element is the unterminated tail. -/
def splitLinesGo : List Char → List Char → List (List Char)
  | [], acc => [acc.reverse]
  | c :: rest, acc =>
    if c = newlineChar then stripTrailingCR acc.reverse :: splitLinesGo rest []
    else splitLinesGo rest (c :: acc)

/-- Drop the final empty segment produced by a terminating newline, so that a
final line ending yields the same lines as its absence (`str::lines`). -/
def dropFinalEmpty (ls : List (List Char)) : List (List Char) :=
  if ls.getLast? = some [] then ls.dropLast else ls

/-- `str::lines`. -/
def rustLines (s : List Char) : List (List Char) :=
  dropFinalEmpty (splitLinesGo s [])

/-- The Unicode `White_Space` property, as used by `str::trim`. -/
def isRustWhitespace (c : Char) : Bool :=
  (9 ≤ c.toNat && c.toNat ≤ 13) || c.toNat = 32 || c.toNat = 133 || c.toNat = 160 ||
  c.toNat = 5760 || (8192 ≤ c.toNat && c.toNat ≤ 8202) || c.toNat = 8232 ||
  c.toNat = 8233 || c.toNat = 8239 || c.toNat = 8287 || c.toNat = 12288

/-- Drop matching characters from the front. -/
def dropLeading (p : Char → Bool) : List Char → List Char
  | [] => []
  | c :: rest => if p c then dropLeading p rest else c :: rest

/-- Trim matching characters from both ends (`str::trim`, `trim_matches`). -/
def trimBy (p : Char → Bool) (l : List Char) : List Char :=
  (dropLeading p ((dropLeading p l).reverse)).reverse

/-- Embedding of `log_assertion` (`fuzzamoto/src/assertions.rs:160-175`, nyx
build): serialize the scope with serde_json, base64-encode the UTF-8 bytes,
wrap the result in `StdoutMessage::Assertion`, and serialize the envelope;
the envelope is printed as one stdout line. -/
def log_assertion (scope : AssertionScope) : List Char :=
  printStdoutMessage (StdoutMessage.Assertion
    (b64Encode (utf8Encode (printAssertionScope scope))))

/-- The body of the line loop of `parse_assertions_from_stdout`
(`fuzzamoto-libafl/src/feedbacks/assertions.rs:28-40`): trim whitespace and
NUL characters, parse the envelope, base64-decode the payload, decode the
bytes as UTF-8, and parse the inner `AssertionScope`. -/
def parseAssertionLine (line : List Char) : Option AssertionScope :=
  match parseStdoutMessage (trimBy (fun c => c == nullChar)
      (trimBy isRustWhitespace line)) with
  | some (StdoutMessage.Assertion data) =>
    match b64Decode data with
    | none => none
    | some decoded =>
      match utf8Decode decoded with
      | none => none
      | some json => parseAssertionScopeFull json
  | _ => none

/-- Embedding of `parse_assertions_from_stdout`
(`fuzzamoto-libafl/src/feedbacks/assertions.rs:25-43`).
`String::from_utf8_lossy` is modelled as strict UTF-8 decoding (all inputs
considered are valid UTF-8); the `HashMap` is modelled as an association list
with newest-first entries, so an insert is a cons and a lookup finds the most
recent binding for a key. -/
def parse_assertions_from_stdout (buffer : List Nat) :
    List (List Char × AssertionScope) :=
  match utf8Decode buffer with
  | none => []
  | some stdout =>
    (rustLines stdout).foldl (fun m line =>
      match parseAssertionLine line with
      | some scope => (scope.message, scope) :: m
      | none => m) []

lemma splitLinesGo_append_newline (l rest : List Char) : ∀ acc, newlineChar ∉ l →
    splitLinesGo (l ++ (newlineChar :: rest)) acc
      = stripTrailingCR (acc.reverse ++ l) :: splitLinesGo rest [] := by
  induction l with
  | nil =>
    intro acc h
    rw [List.nil_append]
    rw [splitLinesGo.eq_def]
    dsimp only
    rw [if_pos rfl, List.append_nil]
  | cons c cs ih =>
    intro acc h
    have hc : ¬ c = newlineChar := fun he => h (he ▸ List.mem_cons_self c cs)
    rw [List.cons_append]
    rw [splitLinesGo.eq_def]
    dsimp only
    rw [if_neg hc]
    rw [ih (c :: acc) (fun hm => h (List.mem_cons_of_mem c hm))]
    rw [List.reverse_cons, List.append_assoc]
    rfl

lemma escapeChar_plain (c : Char) (h1 : ¬ c = quoteChar) (h2 : ¬ c = backslashChar)
    (h3 : 32 ≤ c.toNat) : escapeChar c = [c] := by
  unfold escapeChar
  rw [if_neg h1, if_neg h2, if_neg (by omega), if_neg (by omega), if_neg (by omega),
    if_neg (by omega), if_neg (by omega), if_neg (by omega)]

lemma b64Char_plain : ∀ n : Fin 64, ¬ b64Char n.val = quoteChar
    ∧ ¬ b64Char n.val = backslashChar ∧ 32 ≤ (b64Char n.val).toNat
    ∧ ¬ b64Char n.val = newlineChar := by
  decide

lemma eqPadChar_plain : ¬ eqPadChar = quoteChar ∧ ¬ eqPadChar = backslashChar
    ∧ 32 ≤ eqPadChar.toNat ∧ ¬ eqPadChar = newlineChar := by
  decide

lemma b64Encode_plain : ∀ bs : List Nat, (∀ x ∈ bs, x < 256) →
    ∀ c ∈ b64Encode bs, ¬ c = quoteChar ∧ ¬ c = backslashChar
      ∧ 32 ≤ c.toNat ∧ ¬ c = newlineChar := by
  intro bs
  induction bs using b64Encode.induct with
  | case1 =>
    intro _ c hc
    simp [b64Encode] at hc
  | case2 a =>
    intro hlt c hc
    have ha : a < 256 := hlt a (by simp)
    simp only [b64Encode, List.mem_cons, List.not_mem_nil, or_false] at hc
    rcases hc with hc | hc | hc | hc
    · exact hc ▸ b64Char_plain ⟨a / 4, by omega⟩
    · exact hc ▸ b64Char_plain ⟨a % 4 * 16, by omega⟩
    · exact hc ▸ eqPadChar_plain
    · exact hc ▸ eqPadChar_plain
  | case3 a b =>
    intro hlt c hc
    have ha : a < 256 := hlt a (by simp)
    have hb : b < 256 := hlt b (by simp)
    simp only [b64Encode, List.mem_cons, List.not_mem_nil, or_false] at hc
    rcases hc with hc | hc | hc | hc
    · exact hc ▸ b64Char_plain ⟨a / 4, by omega⟩
    · exact hc ▸ b64Char_plain ⟨a % 4 * 16 + b / 16, by omega⟩
    · exact hc ▸ b64Char_plain ⟨b % 16 * 4, by omega⟩
    · exact hc ▸ eqPadChar_plain
  | case4 a b c rest ih =>
    intro hlt x hx
    have ha : a < 256 := hlt a (by simp)
    have hb : b < 256 := hlt b (by simp)
    have hc : c < 256 := hlt c (by simp)
    simp only [b64Encode, List.mem_cons] at hx
    rcases hx with hx | hx | hx | hx | hx
    · exact hx ▸ b64Char_plain ⟨a / 4, by omega⟩
    · exact hx ▸ b64Char_plain ⟨a % 4 * 16 + b / 16, by omega⟩
    · exact hx ▸ b64Char_plain ⟨b % 16 * 4 + c / 64, by omega⟩
    · exact hx ▸ b64Char_plain ⟨c % 64, by omega⟩
    · exact ih (fun y hy => hlt y (by simp [hy])) x hx

lemma jsonEscape_plain (s : List Char)
    (h : ∀ c ∈ s, escapeChar c = [c]) : jsonEscape s = s := by
  induction s with
  | nil => rfl
  | cons c cs ih =>
    rw [jsonEscape, List.flatMap_cons, h c (List.mem_cons_self c cs)]
    rw [show cs.flatMap escapeChar = jsonEscape cs from rfl]
    rw [ih (fun x hx => h x (List.mem_cons_of_mem c hx))]
    rfl

lemma log_assertion_shape (S : AssertionScope) :
    log_assertion S = lbraceChar :: ((printJsonString assertionTag
      ++ (colonChar :: printJsonString (b64Encode (utf8Encode
        (printAssertionScope S))))) ++ [rbraceChar]) := rfl

lemma log_assertion_no_newline (S : AssertionScope) :
    newlineChar ∉ log_assertion S := by
  have hbytes := utf8Encode_bytes_lt (printAssertionScope S)
  have hplain := b64Encode_plain (utf8Encode (printAssertionScope S)) hbytes
  have hesc : jsonEscape (b64Encode (utf8Encode (printAssertionScope S)))
      = b64Encode (utf8Encode (printAssertionScope S)) :=
    jsonEscape_plain _ (fun c hc =>
      escapeChar_plain c (hplain c hc).1 (hplain c hc).2.1 (hplain c hc).2.2.1)
  intro hmem
  rw [log_assertion_shape S] at hmem
  rw [show printJsonString (b64Encode (utf8Encode (printAssertionScope S)))
      = quoteChar :: (jsonEscape (b64Encode (utf8Encode (printAssertionScope S)))
        ++ [quoteChar]) from rfl] at hmem
  rw [hesc] at hmem
  have h1 : newlineChar ∉ printJsonString assertionTag := by decide
  have h2 : newlineChar ∉ b64Encode (utf8Encode (printAssertionScope S)) :=
    fun h => (hplain newlineChar h).2.2.2 rfl
  simp only [List.mem_cons, List.mem_append, List.mem_singleton,
    List.not_mem_nil, or_false] at hmem
  rcases hmem with h | (h | h | h | h | h) | h
  · exact absurd h (by decide)
  · exact h1 h
  · exact absurd h (by decide)
  · exact absurd h (by decide)
  · exact h2 h
  · exact absurd h (by decide)
  · exact absurd h (by decide)

lemma dropLeading_cons_false (p : Char → Bool) (c : Char) (rest : List Char)
    (h : p c = false) : dropLeading p (c :: rest) = c :: rest := by
  rw [dropLeading.eq_def]
  simp [h]

lemma trimBy_of_ends (p : Char → Bool) (c d : Char) (X : List Char)
    (hc : p c = false) (hd : p d = false) :
    trimBy p (c :: (X ++ [d])) = c :: (X ++ [d]) := by
  unfold trimBy
  rw [dropLeading_cons_false p c (X ++ [d]) hc]
  have h2 : (c :: (X ++ [d])).reverse = d :: (X.reverse ++ [c]) := by simp
  rw [h2, dropLeading_cons_false p d (X.reverse ++ [c]) hd]
  rw [← h2, List.reverse_reverse]

lemma stripTrailingCR_log (S : AssertionScope) :
    stripTrailingCR (log_assertion S) = log_assertion S := by
  unfold stripTrailingCR
  rw [log_assertion_shape S]
  rw [show (lbraceChar :: ((printJsonString assertionTag
      ++ (colonChar :: printJsonString (b64Encode (utf8Encode
        (printAssertionScope S))))) ++ [rbraceChar]))
    = (lbraceChar :: (printJsonString assertionTag
      ++ (colonChar :: printJsonString (b64Encode (utf8Encode
        (printAssertionScope S)))))) ++ [rbraceChar] from rfl]
  rw [List.getLast?_concat]
  rw [if_neg (by decide)]

lemma parseAssertionLine_log (S : AssertionScope) :
    parseAssertionLine (log_assertion S) = some S := by
  unfold parseAssertionLine
  rw [log_assertion_shape S]
  rw [trimBy_of_ends isRustWhitespace lbraceChar rbraceChar _ (by decide) (by decide)]
  rw [trimBy_of_ends (fun c => c == nullChar) lbraceChar rbraceChar _
    (by decide) (by decide)]
  rw [← log_assertion_shape S]
  rw [show log_assertion S = printStdoutMessage (StdoutMessage.Assertion
    (b64Encode (utf8Encode (printAssertionScope S)))) from rfl]
  rw [parseStdoutMessage_print]
  dsimp only
  rw [b64Decode_encode _ (utf8Encode_bytes_lt _)]
  dsimp only
  rw [utf8Decode_encode]
  dsimp only
  exact parseAssertionScopeFull_print S

/-- C6: emitting an `AssertionScope` S the way the target does — serde_json
serialization, base64 encoding of the UTF-8 bytes, wrapping in a
`StdoutMessage::Assertion` JSON envelope on its own stdout line — and running
`parse_assertions_from_stdout` over the resulting buffer yields a map whose
single entry has key `S.message()` and value S; a preceding line that fails to
parse as the envelope (here any `bad` line, given that it fails) is silently
skipped and contributes no entry. -/
theorem C6_envelope_round_trip (S : AssertionScope) (bad : List Char)
    (hbad : parseAssertionLine (stripTrailingCR bad) = none)
    (hnl : newlineChar ∉ bad) :
    parse_assertions_from_stdout
        (utf8Encode (bad ++ (newlineChar :: (log_assertion S ++ [newlineChar]))))
      = [(S.message, S)] := by
  unfold parse_assertions_from_stdout
  rw [utf8Decode_encode]
  dsimp only
  unfold rustLines
  rw [splitLinesGo_append_newline bad _ [] hnl]
  rw [splitLinesGo_append_newline (log_assertion S) [] []
    (log_assertion_no_newline S)]
  rw [show splitLinesGo [] [] = [([] : List Char)] from rfl]
  rw [show (([] : List Char).reverse ++ bad) = bad from rfl]
  rw [show (([] : List Char).reverse ++ log_assertion S) = log_assertion S from rfl]
  unfold dropFinalEmpty
  rw [show (stripTrailingCR bad :: (stripTrailingCR (log_assertion S)
    :: [([] : List Char)])).getLast? = some [] from rfl]
  rw [if_pos rfl]
  rw [show (stripTrailingCR bad :: (stripTrailingCR (log_assertion S)
    :: [([] : List Char)])).dropLast
    = [stripTrailingCR bad, stripTrailingCR (log_assertion S)] from rfl]
  rw [List.foldl_cons, List.foldl_cons, List.foldl_nil]
  rw [hbad]
  dsimp only
  rw [stripTrailingCR_log S, parseAssertionLine_log S]

theorem C6_envelope_round_trip_witness :
    parse_assertions_from_stdout (utf8Encode (('x' :: []) ++ (newlineChar ::
      (log_assertion (AssertionScope.Sometimes (Assertion.LessThan 10 3) ('m' :: []))
        ++ [newlineChar]))))
      = [((AssertionScope.Sometimes (Assertion.LessThan 10 3) ('m' :: [])).message,
          AssertionScope.Sometimes (Assertion.LessThan 10 3) ('m' :: []))] :=
  C6_envelope_round_trip (AssertionScope.Sometimes (Assertion.LessThan 10 3) ('m' :: []))
    ('x' :: []) (by decide) (by decide)
